import Mathlib

/-!
Verification development for the session-pipeline backend (`backend/main.py`).

The Python source is shallowly embedded: pure string manipulation and the
per-stage control flow are translated into executable Lean definitions, and
every external collaborator (the LLM completion service, the blob store, the
record store, Python stdlib parsers) is passed in as an explicit oracle
parameter, following the contracts stated for them in the specification.
Machine text is modelled as `List Char` / `String`; timestamps as integer
epoch seconds; JSON values as an inductive `Json` type.
-/

set_option maxRecDepth 4000

namespace AIAnalyst

/-! ## Python string primitives -/
/-- Whitespace characters recognised by Python's `str.strip()` (ASCII range). -/
def isPySpace (c : Char) : Bool :=
  c = ' ' || c = '\t' || c = '\n' || c = '\r' || c = '\x0b' || c = '\x0c'

/-- Python `str.strip()` on a character list. -/
def stripChars (cs : List Char) : List Char :=
  ((cs.dropWhile isPySpace).reverse.dropWhile isPySpace).reverse

/-- Python `str.strip()` on a `String`. -/
def pyStrip (s : String) : String :=
  String.mk (stripChars s.toList)

/-- Python `str.find(c)`: index of the first occurrence of `c`, if any. -/
def firstIdxOf (c : Char) : List Char → Option Nat
  | [] => none
  | x :: xs => if x = c then some 0 else (firstIdxOf c xs).map (· + 1)

/-- Python `str.rfind(c)`: index of the last occurrence of `c`, if any. -/
def lastIdxOf (c : Char) : List Char → Option Nat
  | [] => none
  | x :: xs =>
    match lastIdxOf c xs with
    | some k => some (k + 1)
    | none => if x = c then some 0 else none

/-! ## JSON values (the shape `json.loads` produces) -/
/-- JSON values as Python's `json.loads` yields them: objects are ordered
key/value lists (Python `dict`s, so keys are unique in practice), numbers are
abstracted to integers (no claim depends on float behaviour of the payloads
involved). -/
inductive Json where
  | null
  | bool (b : Bool)
  | num (n : Int)
  | str (s : String)
  | arr (xs : List Json)
  | obj (kvs : List (String × Json))

/-- Python `dict` lookup (`d[k]` / `d.get(k)`): first binding of the key. -/
def lookupKey : List (String × Json) → String → Option Json
  | [], _ => none
  | (k', v) :: rest, k => if k' = k then some v else lookupKey rest k

/-- Python `dict` assignment `d[k] = v`: replace the binding of `k`
(appending it if absent, which cannot happen at the call sites below because
presence of the key has been checked first). -/
def setKey : List (String × Json) → String → Json → List (String × Json)
  | [], k, v => [(k, v)]
  | (k', v') :: rest, k, v =>
    if k' = k then (k, v) :: rest else (k', v') :: setKey rest k v

/-! ## `parse_insights_node`: per-item validation (main.py lines 511-536) -/
/-- The required insight fields checked by `parse_insights_node`. -/
def requiredFields : List String := ["label", "value", "trend", "context", "data"]

/-- `insight["trend"] in ["up", "down", "stable"]` on the looked-up value. -/
def trendOk : Option Json → Bool
  | some (Json.str s) => s = "up" || s = "down" || s = "stable"
  | _ => false

/-- `all(field in insight for field in required_fields)` for a JSON object. -/
def hasAllRequired : Json → Bool
  | Json.obj kvs => requiredFields.all (fun f => (lookupKey kvs f).isSome)
  | _ => false

/-- One iteration of the validation loop of `parse_insights_node`
(main.py lines 513-533): a non-dict item is skipped, an item missing a
required field is skipped, an out-of-enum `trend` is overwritten with
`"stable"`, a non-list `data` is overwritten with `[]`; the (possibly
repaired) item is kept. -/
def validateInsight (j : Json) : Option Json :=
  match j with
  | Json.obj kvs =>
    if requiredFields.all (fun f => (lookupKey kvs f).isSome) then
      let kvs1 := if trendOk (lookupKey kvs "trend") then kvs
                  else setKey kvs "trend" (Json.str "stable")
      let kvs2 := match lookupKey kvs1 "data" with
                  | some (Json.arr _) => kvs1
                  | _ => setKey kvs1 "data" (Json.arr [])
      some (Json.obj kvs2)
    else none
  | _ => none

/-- The whole validation loop: `validated_insights` as assembled by
`parse_insights_node` from the model's `insights` array. -/
def validate_insights (xs : List Json) : List Json :=
  xs.filterMap validateInsight

/-! ## A small backtracking matcher for the fixed regular expressions of
`extract_json_from_text` (main.py lines 622-631)

The two "json patterns" of strategy 3 are sequences of literals, greedy
negated character classes (`[^x]*`), and lazy dot-alls (`.*?` under
`re.DOTALL`).  `matchToks toks s` returns the number of characters a match of
the token sequence anchored at the start of `s` consumes, replicating
Python's backtracking order (greedy classes try the longest extent first,
lazy dot-alls the shortest). -/
inductive Tok where
  | lit (w : List Char)
  | starNeg (c : Char)
  | starAnyLazy
deriving DecidableEq

/-- Try `f` at `k, k-1, ..., 0`, first success wins (greedy backtracking). -/
def tryDown (f : Nat → Option Nat) : Nat → Option Nat
  | 0 => f 0
  | Nat.succ k => match f (Nat.succ k) with
                  | some r => some r
                  | none => tryDown f k

/-- Try `f` at `k, k+1, ..., k+budget`, first success wins (lazy expansion). -/
def tryUpAux (f : Nat → Option Nat) : Nat → Nat → Option Nat
  | 0, k => f k
  | Nat.succ n, k => match f k with
                     | some r => some r
                     | none => tryUpAux f n (k + 1)

/-- Anchored match: number of characters consumed by the token sequence at
the head of `s`, if it matches. -/
def matchToks : List Tok → List Char → Option Nat
  | [], _ => some 0
  | Tok.lit w :: rest, s =>
    if w.isPrefixOf s then (matchToks rest (s.drop w.length)).map (fun m => w.length + m)
    else none
  | Tok.starNeg c :: rest, s =>
    tryDown (fun k => (matchToks rest (s.drop k)).map (fun m => k + m))
      ((s.takeWhile (fun x => x ≠ c)).length)
  | Tok.starAnyLazy :: rest, s =>
    tryUpAux (fun k => (matchToks rest (s.drop k)).map (fun m => k + m)) s.length 0

/-- `re.search`: leftmost match, returned as the matched substring. -/
def searchPattern (toks : List Tok) : List Char → Option (List Char)
  | [] => (matchToks toks []).map (fun n => List.take n [])
  | c :: rest =>
    match matchToks toks (c :: rest) with
    | some n => some ((c :: rest).take n)
    | none => searchPattern toks rest

/-- Strategy-3 pattern `\{[^}]*"insights"[^}]*\[[^\]]*\][^}]*\}`. -/
def patInsightsArr : List Tok :=
  [Tok.lit ['{'], Tok.starNeg '}', Tok.lit "\"insights\"".toList, Tok.starNeg '}',
   Tok.lit ['['], Tok.starNeg ']', Tok.lit [']'], Tok.starNeg '}', Tok.lit ['}']]

/-- Strategy-3 pattern `\{.*?"insights".*?\}` (`re.DOTALL`). -/
def patInsightsObj : List Tok :=
  [Tok.lit ['{'], Tok.starAnyLazy, Tok.lit "\"insights\"".toList, Tok.starAnyLazy,
   Tok.lit ['}']]

/-- The strategy-3 loop over `json_patterns` (main.py lines 628-631): first
pattern with a match wins; the fall-through result is the empty string. -/
def strategy3 (text : List Char) : List Char :=
  match searchPattern patInsightsArr text with
  | some m => m
  | none =>
    match searchPattern patInsightsObj text with
    | some m => m
    | none => []

/-! ## Fenced code blocks (strategy 1, main.py lines 598-608) -/
/-- The closing fence literal. -/
def fenceLit : List Char := ['`', '`', '`']

/-- The `"""```json"""` opening marker (matched case-insensitively). -/
def jsonFenceLit : List Char := '`' :: '`' :: '`' :: "json".toList

/-- Occurrence positions of `needle` in `hay`, ascending. -/
def occList (needle hay : List Char) : List Nat :=
  (List.range (hay.length + 1)).filter (fun i => needle.isPrefixOf (hay.drop i))

/-- The first capture of `re.findall(marker + r'\s*(.*?)\s*```', text,
re.DOTALL | re.IGNORECASE)` followed by `.strip()`, for a fence `marker`
given in lowercase.  Because the capture is surrounded by `\s*` on both
sides and then stripped, the stripped capture equals the stripped text
between the end of the leftmost viable opening marker and the first closing
fence after it; leftmost-match semantics make "viable" mean "some closing
fence occurs after it". -/
def fencedCapture (marker text : List Char) : Option (List Char) :=
  let lt := text.map Char.toLower
  let closes := occList fenceLit lt
  match (occList marker lt).find? (fun i => closes.any (fun j => i + marker.length ≤ j)) with
  | none => none
  | some i =>
    match (closes.filter (fun j => i + marker.length ≤ j)).head? with
    | none => none
    | some j => some (stripChars ((text.drop (i + marker.length)).take (j - (i + marker.length))))

/-- `candidate.startswith('{') and candidate.endswith('}')`. -/
def looksJsonObj (cand : List Char) : Bool :=
  match cand.head?, cand.getLast? with
  | some a, some b => a = '{' && b = '}'
  | _, _ => false

/-- The loop over `code_block_patterns` (main.py lines 603-608): each
pattern's first capture is stripped and returned if it looks like a JSON
object; otherwise the next pattern is tried. -/
def tryCodeBlocks : List (List Char) → List Char → Option (List Char)
  | [], _ => none
  | m :: ms, text =>
    match fencedCapture m text with
    | some cand => if looksJsonObj cand then some cand else tryCodeBlocks ms text
    | none => tryCodeBlocks ms text

/-! ## `extract_json_from_text` (main.py lines 589-633) -/
/-- `extract_json_from_text`, translated strategy by strategy: fenced code
blocks first (json-tagged, then untagged), then the first-`{`-to-last-`}`
substring guarded by `last_brace > first_brace` and equal brace counts, then
the `insights`-anchored pattern search, else the empty string. -/
def extract_json_from_text (text : List Char) : List Char :=
  match tryCodeBlocks [jsonFenceLit, fenceLit] text with
  | some c => c
  | none =>
    match firstIdxOf '{' text, lastIdxOf '}' text with
    | some f, some l =>
      if f < l then
        let cand := (text.drop f).take (l + 1 - f)
        if cand.count '{' = cand.count '}' then cand else strategy3 text
      else strategy3 text
    | _, _ => strategy3 text

/-! ### The claimed strategy chain, written from the specification's words -/
/-- Strategy (b) exactly as the claim words it: "the substring from the
first `{` to the last `}`, taken only when its counts of `{` and `}` are
equal" — with no separate requirement that the last `}` lie after the
first `{`. -/
def specStrategyB (text : List Char) : Option (List Char) :=
  match firstIdxOf '{' text, lastIdxOf '}' text with
  | some f, some l =>
    let cand := (text.drop f).take (l + 1 - f)
    if cand.count '{' = cand.count '}' then some cand else none
  | _, _ => none

/-- Strategy (c): the `insights`-anchored pattern search, as an optional
result. -/
def specStrategyC (text : List Char) : Option (List Char) :=
  match searchPattern patInsightsArr text with
  | some m => some m
  | none => searchPattern patInsightsObj text

/-- The claimed behaviour: strategies (a), (b), (c) in priority order, first
success winning, empty string when all fail. -/
def extractJsonSpec (text : List Char) : List Char :=
  match tryCodeBlocks [jsonFenceLit, fenceLit] text with
  | some c => c
  | none =>
    match specStrategyB text with
    | some c => c
    | none => (specStrategyC text).getD []

/-! ## `parse_insights_node` (main.py lines 435-586) -/
/-- Result of the insight-extraction stage: the `structured_insights` value
the node returns into the pipeline state, and the value (if any) it writes
to the session record's `categorized_insights` column.  Per the record-store
contract the update reports success or failure rather than raising and the
node only logs a failure, so the issued value is what is modelled. -/
structure ParseInsightsResult where
  structured_insights : List Json
  dbWrite : Option (List Json)

/-- `parse_insights_node`: an empty analysis short-circuits (still
persisting `[]` when a session exists); otherwise the completion outcome
(`llm` oracle; `Except.error` is the generic-exception path) is stripped and
passed to `extract_json_from_text`; an empty extraction, a `json.loads`
failure (`jloads` oracle returning `none` is the `JSONDecodeError` path), a
non-dict top level, a missing `insights` key or a non-list `insights` value
all yield `[]`; a well-shaped object yields the validated item list.  In
every path the final list is written to `categorized_insights` when a
session id is present. -/
def json_str_of (content : String) : String :=
  String.mk (extract_json_from_text (pyStrip content).toList)

/-- The `final_insights` value computed by `parse_insights_node` for a
non-empty analysis (main.py lines 482-536 and the two exception handlers). -/
def parse_insights_final (llm : Except String String)
    (jloads : String → Option Json) : List Json :=
  match llm with
  | Except.error _ => []
  | Except.ok content =>
    if json_str_of content = "" then []
    else
      match jloads (json_str_of content) with
      | none => []
      | some data =>
        match data with
        | Json.obj kvs =>
          match lookupKey kvs "insights" with
          | none => []
          | some (Json.arr insights) => validate_insights insights
          | some _ => []
        | _ => []

def parse_insights_node (analysis : String) (session_id : Option String)
    (llm : Except String String) (jloads : String → Option Json) :
    ParseInsightsResult :=
  if analysis = "" then
    { structured_insights := [],
      dbWrite := if session_id.isSome then some [] else none }
  else
    { structured_insights := parse_insights_final llm jloads,
      dbWrite := if session_id.isSome then some (parse_insights_final llm jloads)
                 else none }

/-- The `trend` field of a JSON object. -/
def trendField : Json → Option Json
  | Json.obj kvs => lookupKey kvs "trend"
  | _ => none

/-- The `data` field of a JSON object. -/
def dataField : Json → Option Json
  | Json.obj kvs => lookupKey kvs "data"
  | _ => none

/-- Scenario C of the specification: an item whose trend reads
`"sideways"` is kept, now reading `"stable"`. -/
def sidewaysItem : List (String × Json) :=
  [("label", Json.str "Revenue"), ("value", Json.str "$5"),
   ("trend", Json.str "sideways"), ("context", Json.str "last month"),
   ("data", Json.arr [])]

/-- A well-formed insight item used for concrete evaluation. -/
def insightItem : Json :=
  Json.obj [("label", Json.str "A"), ("value", Json.str "1"),
            ("trend", Json.str "up"), ("context", Json.str "c"),
            ("data", Json.arr [])]

/-- Six identical well-formed items: one more than the advisory cap of
five. -/
def sixInsights : List Json := List.replicate 6 insightItem

/-- A completion that is a bare JSON document with six insights; the
extractor's strategy (b) returns it unchanged. -/
def sixInsightsText : String :=
  "\x7b\"insights\": [" ++ String.intercalate ", " (List.replicate 6
    "\x7b\"label\": \"A\", \"value\": \"1\", \"trend\": \"up\", \"context\": \"c\", \"data\": []\x7d")
  ++ "]\x7d"

/-- `json.loads` evaluated at the single document this run produces: the
oracle models the stdlib parser on exactly that text. -/
def sixJloads : String → Option Json :=
  fun s => if s = sixInsightsText
           then some (Json.obj [("insights", Json.arr sixInsights)])
           else none

/-! ## `categorize_insight_node` (main.py lines 376-433) -/
/-- Python values as `ast.literal_eval` yields them, to the detail the tag
parser inspects: strings, lists, or anything else. -/
inductive PyVal where
  | str (s : String)
  | list (xs : List PyVal)
  | other

/-- The leftmost match of `re.search` with pattern `\[(.*?)\]` under
`re.DOTALL`: the first `[` that has a `]` somewhere after it, matched up to
the first such `]`, brackets included (`match.group(0)`). -/
def firstBracketMatch (text : List Char) : Option (List Char) :=
  match firstIdxOf '[' text with
  | none => none
  | some i =>
    match firstIdxOf ']' (text.drop (i + 1)) with
    | none => none
    | some k => some ((text.drop i).take (k + 2))

/-- One step of the tag-cleaning comprehension
`[str(item).strip() for item in parsed_list if isinstance(item, str) and item.strip()]`. -/
def tagOfItem : PyVal → Option String
  | PyVal.str s => if pyStrip s ≠ "" then some (pyStrip s) else none
  | _ => none

/-- `categorize_insight_node`: an empty analysis yields no tags without a
model call; a model failure (`llm` oracle error), a missing bracketed
substring, a literal-eval failure (`litEval` oracle none, the
`ValueError`/`SyntaxError` path) or a non-list literal all yield `[]`;
otherwise the string elements are stripped and the empty ones dropped. -/
def categorize_insight_node (analysis : String) (llm : Except String String)
    (litEval : String → Option PyVal) : List String :=
  if analysis = "" then []
  else
    match llm with
    | Except.error _ => []
    | Except.ok output =>
      match firstBracketMatch output.toList with
      | none => []
      | some ls =>
        match litEval (String.mk ls) with
        | none => []
        | some (PyVal.list xs) => xs.filterMap tagOfItem
        | some _ => []

/-- Modelled fragment of `ast.literal_eval`, the stdlib literal parser the
node calls: it evaluates list literals of single-quoted escape-free strings
and reports failure on everything else. -/
def parseQuoted : List Char → Option (String × List Char)
  | '\'' :: rest =>
    let content := rest.takeWhile (fun c => c ≠ '\'')
    match rest.dropWhile (fun c => c ≠ '\'') with
    | '\'' :: rest2 => some (String.mk content, rest2)
    | _ => none
  | _ => none

/-- Items of a string-list literal after the opening `[`, fuelled by the
input length. -/
def parseItems : Nat → List Char → Option (List String)
  | 0, _ => none
  | Nat.succ fuel, cs =>
    match parseQuoted (cs.dropWhile isPySpace) with
    | none => none
    | some (s, rest) =>
      match rest.dropWhile isPySpace with
      | ']' :: tail => if tail.dropWhile isPySpace = [] then some [s] else none
      | ',' :: tail => (parseItems fuel tail).map (fun l => s :: l)
      | _ => none

/-- `ast.literal_eval` on list-of-string literals, as a `PyVal`. -/
def literalEvalStrList (str : String) : Option PyVal :=
  match stripChars str.toList with
  | '[' :: rest =>
    if rest.dropWhile isPySpace = [']'] then some (PyVal.list [])
    else (parseItems rest.length rest).map (fun l => PyVal.list (l.map PyVal.str))
  | _ => none

/-- "The model output contains no bracketed list-like substring": no `[`
with a `]` anywhere after it. -/
def noBracketPair (text : List Char) : Prop :=
  ∀ i j : Nat, i < j → ¬(text[i]? = some '[' ∧ text[j]? = some ']')

/-- A model output carrying eleven tags. -/
def elevenTagsOutput : String :=
  "['a', 'a', 'a', 'a', 'a', 'a', 'a', 'a', 'a', 'a', 'a']"

/-! ## `analyze_data_node` (main.py lines 285-374) -/
/-- A data row: a Python dict, with cell values modelled in their rendered
string form (the node only ever uses `str(row.get(h, ""))`). -/
abbrev Row := List (String × String)

/-- `range(0, len(data), 100)`: the chunk start offsets
(`CHUNK_SIZE = 100`).  Python's `range(0, L, s)` has `ceil(L / s)`
elements. -/
def chunkStarts (len : Nat) : List Nat :=
  (List.range ((len + 99) / 100)).map (fun k => 100 * k)

/-- `chunks = [data[i:i + CHUNK_SIZE] for i in range(0, len(data), CHUNK_SIZE)]`. -/
def chunks (data : List Row) : List (List Row) :=
  (chunkStarts data.length).map (fun i => (data.drop i).take 100)

/-- The headers line plus one comma-joined line per row; a missing key
renders as the empty string (`str(row.get(h, ""))`). -/
def tableString (headers : List String) (chunk : List Row) : String :=
  String.intercalate "\n"
    (String.intercalate ", " headers
      :: chunk.map (fun row => String.intercalate ", "
           (headers.map (fun h => (List.lookup h row).getD ""))))

/-- The per-chunk prompt template (main.py lines 333-346) with the rendered
table spliced in. -/
def chunkPrompt (table_string : String) : String :=
  "\n        You are an expert business data analyst. Analyze the following chunk of tabular business data and provide a clear, concise, and actionable summary for a non-technical business audience.\n\n        DATA CHUNK:\n        "
  ++ table_string
  ++ "\n\n        Structure your analysis using:\n        - Key Trends\n        - Notable Changes or Patterns\n        - Possible Causes or Explanations\n        - Actionable Insights & Recommendations\n\n        Be specific. Use numbers or percentages where relevant. Avoid generic advice. Keep your summary under 200 words.\n        "

/-- The entry the loop appends for chunk `index` (0-based): a summary on
model success, an inline error marker (wrapping the printed
`error_msg`) on failure. -/
def chunkEntry (llm : Nat → String → Except String String) (headers : List String)
    (index : Nat) (chunk : List Row) : String :=
  match llm index (chunkPrompt (tableString headers chunk)) with
  | Except.ok content =>
    "Chunk " ++ toString (index + 1) ++ " Summary:\n" ++ content ++ "\n"
  | Except.error e =>
    "Chunk " ++ toString (index + 1) ++ " Error: Error processing chunk "
      ++ toString (index + 1) ++ ": " ++ e ++ "\n"

/-- The `combined_analysis` list built by the
`for index, chunk in enumerate(chunks)` loop: one completion request per
chunk, in order. -/
def chunkEntries (llm : Nat → String → Except String String) (headers : List String) :
    Nat → List (List Row) → List String
  | _, [] => []
  | i, chunk :: rest =>
    chunkEntry llm headers i chunk :: chunkEntries llm headers (i + 1) rest

/-- What the Chunked Analyzer produces: the joined analysis text, the
per-chunk entry list it was joined from, and the number of model completion
requests issued (one per loop iteration).  The optional `initial_analysis`
record update that follows (failure logged, stage continues) involves no
further model calls and is outside this result. -/
structure AnalyzeResult where
  analysis : String
  combined_analysis : List String
  llm_requests : Nat

/-- `analyze_data_node`: no rows or no extractable headers short-circuit
without contacting the model; otherwise the rows are split into contiguous
100-row chunks, each submitted as one completion (`llm` is the completion
oracle, indexed by call number and prompt), a failed chunk contributing an
inline error marker; the combined analysis joins the entries with blank
lines. -/
def analyze_data_node (data : List Row)
    (llm : Nat → String → Except String String) : AnalyzeResult :=
  if data.isEmpty then
    { analysis := "No data provided for analysis.",
      combined_analysis := [], llm_requests := 0 }
  else
    let headers := (data.head?.getD []).map Prod.fst
    if headers.isEmpty then
      { analysis := "Data loaded, but could not extract headers for initial analysis.",
        combined_analysis := [], llm_requests := 0 }
    else
      let entries := chunkEntries llm headers 0 (chunks data)
      { analysis := String.intercalate "\n\n" entries,
        combined_analysis := entries,
        llm_requests := (chunks data).length }

/-- Scenario A's two-row table. -/
def scenarioRows : List Row :=
  [[("month", "Jan"), ("revenue", "100")], [("month", "Feb"), ("revenue", "150")]]

/-! ## `load_data_node` (main.py lines 125-283) -/
/-- Result of the storage download oracle: a raised exception, an empty or
`None` payload, or raw bytes (abstracted to an identifier consumed by the
Excel-parser oracle). -/
inductive DLResult where
  | failure (msg : String)
  | empty
  | ok (bytes : Nat)

/-- External collaborators and ambient values of one `load_data_node` run:
the blob download, `pd.read_excel`, `pd.DataFrame` construction success,
the blob upload and record insert outcomes (per the store contract these
report success or failure), the generated `uuid.uuid4()` and
`datetime.now()` in epoch seconds. -/
structure LoadEnv where
  download : String → DLResult
  parseExcel : Nat → Except String (List Row)
  directDfOk : Bool
  upload : String → Bool
  insertOk : Bool
  uuid : String
  now : Int

/-- The partial state update the node returns.  LangGraph merges the
returned dict into the pipeline state, so a field is `none` when its key is
absent from the returned dict and `some v` when set (with `v` itself
optional where the Python value may be `None`). -/
structure LoadUpdate where
  loaded_data : Option (List Row)
  dataframe : Option (Option (List Row))
  session_id : Option (Option String)
  error : Option (Option String)

/-- Store side effects of the run: blob paths written, records successfully
inserted into `analysis_sessions`. -/
structure LoadEffects where
  uploaded : List String
  inserted : List (List (String × Json))

/-- `session_data`, the record inserted at session creation (main.py lines
245-252).  `expires_at` is `(datetime.now() + timedelta(hours=24))`,
modelled in epoch seconds (the ISO-8601 rendering is order-preserving).
The dict carries no `categorized_insights` key. -/
def session_data (session_id original_file_path dataframe_storage_path : String)
    (now : Int) : List (String × Json) :=
  [("session_id", Json.str session_id),
   ("original_file_path", Json.str original_file_path),
   ("dataframe_storage_path", Json.str dataframe_storage_path),
   ("initial_analysis", Json.null),
   ("expires_at", Json.num (now + 24 * 3600)),
   ("chat_history", Json.arr [])]

/-- `df.empty` for a frame built from a row list: pandas "empty" means
`size == 0`, i.e. no rows, or no columns (the column set being the union of
the row keys, empty exactly when every row dict is empty). -/
def dfEmpty (rows : List Row) : Bool :=
  rows.isEmpty || rows.all (fun r => r.isEmpty)

/-- The `supabase_excel` detection (main.py lines 148-152): a one-element
payload whose row carries type `"supabase_excel"` and a truthy path. -/
def supabasePath (payload : List Row) : Option String :=
  match payload with
  | [row] =>
    match List.lookup "type" row, List.lookup "path" row with
    | some t, some p => if t = "supabase_excel" ∧ p ≠ "" then some p else none
    | _, _ => none
  | _ => none

/-- The session-creation block shared by both input paths (main.py lines
211-274): empty-table check, parquet upload, record insert; each failure
returns the error update with an explicit null session id.  The exception
texts are abbreviated to their printed prefixes. -/
def createSession (env : LoadEnv) (rows : List Row) (desc : String) :
    LoadUpdate × LoadEffects :=
  if dfEmpty rows then
    ({ loaded_data := some [], dataframe := some none, session_id := some none,
       error := some (some "ERROR: No data loaded or DataFrame is empty after processing. Cannot create session.") },
     { uploaded := [], inserted := [] })
  else
    let sid := env.uuid
    let path := "processed_data/" ++ sid ++ ".parquet"
    if env.upload path then
      if env.insertOk then
        ({ loaded_data := some rows, dataframe := some (some rows),
           session_id := some (some sid), error := some none },
         { uploaded := [path], inserted := [session_data sid desc path env.now] })
      else
        ({ loaded_data := some [], dataframe := some none, session_id := some none,
           error := some (some "ERROR: Failed during DataFrame serialization/storage or DB session creation: insert") },
         { uploaded := [path], inserted := [] })
    else
      ({ loaded_data := some [], dataframe := some none, session_id := some none,
         error := some (some "ERROR: Failed during DataFrame serialization/storage or DB session creation: upload") },
       { uploaded := [], inserted := [] })

/-- `load_data_node`: payload detection, loading, and session creation.
The direct path relies on the request typing (`List[Dict[str, Any]]`), so
`all(isinstance(row, dict))` holds and the unrecognised-format branch is
unreachable; the module-level initialisation guarantees the storage client
exists. -/
def load_data_node (env : LoadEnv) (payload : List Row) :
    LoadUpdate × LoadEffects :=
  if payload.isEmpty then
    ({ loaded_data := some [], dataframe := some none, session_id := some none,
       error := some (some "No input data provided.") },
     { uploaded := [], inserted := [] })
  else
    match supabasePath payload with
    | some p =>
      match env.download p with
      | DLResult.failure msg =>
        ({ loaded_data := none, dataframe := none, session_id := none,
           error := some (some ("CRITICAL ERROR: Exception during Supabase download or file processing: " ++ msg)) },
         { uploaded := [], inserted := [] })
      | DLResult.empty =>
        ({ loaded_data := none, dataframe := none, session_id := none,
           error := some (some ("ERROR: Supabase download returned empty or None for file: " ++ p ++ ". Check file path and RLS policies (use Service Role Key).")) },
         { uploaded := [], inserted := [] })
      | DLResult.ok bytes =>
        match env.parseExcel bytes with
        | Except.error e =>
          ({ loaded_data := none, dataframe := none, session_id := none,
             error := some (some ("ERROR: Pandas failed to read Excel bytes: " ++ e)) },
           { uploaded := [], inserted := [] })
        | Except.ok rows => createSession env rows ("Supabase Storage: " ++ p)
    | none =>
      if env.directDfOk then createSession env payload "Directly provided data"
      else
        ({ loaded_data := none, dataframe := none, session_id := none,
           error := some (some "ERROR: Failed to create DataFrame from direct data") },
         { uploaded := [], inserted := [] })

/-- The pipeline-state fields `load_data_node` touches. -/
structure PipeState where
  loaded_data : List Row
  dataframe : Option (List Row)
  session_id : Option String
  error : Option String

/-- LangGraph merge semantics: apply a returned partial dict to the
state. -/
def applyUpdate (s : PipeState) (u : LoadUpdate) : PipeState :=
  { loaded_data := u.loaded_data.getD s.loaded_data,
    dataframe := u.dataframe.getD s.dataframe,
    session_id := u.session_id.getD s.session_id,
    error := u.error.getD s.error }

/-- A concrete all-success environment. -/
def loadEnvC : LoadEnv :=
  { download := fun _ => DLResult.empty,
    parseExcel := fun _ => Except.error "unused",
    directDfOk := true,
    upload := fun _ => true,
    insertOk := true,
    uuid := "sid-1",
    now := 0 }

/-- A copy of the all-success environment whose record insert fails. -/
def loadEnvInsFail : LoadEnv :=
  { loadEnvC with insertOk := false }

/-- The initial pipeline state `/invoke` builds: null session id, no
error. -/
def initialPipeState : PipeState :=
  { loaded_data := [], dataframe := none, session_id := none, error := none }

/-! ## `chat_with_insight` (main.py lines 748-955) -/
/-- One stored chat turn. -/
structure ChatMsg where
  role : String
  content : String
deriving DecidableEq

/-- The session-record fields the follow-up engine reads. -/
structure ChatSessionRec where
  dataframe_storage_path : String
  initial_analysis : Option String
  chat_history : List ChatMsg
deriving DecidableEq

/-- External collaborators and process-global state of one `/chat` call:
the record fetch (store contract: record or not-found), the blob download
plus parquet deserialization, the agent run (`ok` carries the optional
`"output"` entry of the result dict; `error` is a raised exception), the
history-update success flag (the store contract reports success or
failure), and the in-process last-processed-session fallback cache. -/
structure ChatEnv where
  fetchSession : String → Option ChatSessionRec
  downloadDf : String → Option (List Row)
  agent : Except String (Option String)
  updateOk : Bool
  gDf : Option (List Row)
  gAnalysis : String
  gSid : Option String

/-- What a `/chat` call produces: an answer together with the history value
written back and whether that persistence update succeeded, or an HTTP
error response. -/
inductive ChatOutcome where
  | ok (answer : String) (historyWritten : List ChatMsg) (persisted : Bool)
  | httpError (code : Nat) (detail : String)

/-- The fallback answer when the agent result carries no `"output"` key. -/
def noOutputDefault : String :=
  "I could not process your request with the available data or found no relevant information."

/-- The agent invocation and history persistence (main.py lines 806-950):
an agent exception becomes a 500; a success appends the user turn then the
assistant turn to the stored history and issues the update, whose failure
is only logged. -/
def chatAgent (env : ChatEnv) (question : String) (hist : List ChatMsg) :
    ChatOutcome :=
  match env.agent with
  | Except.error e =>
    ChatOutcome.httpError 500 ("Error processing chat question: " ++ e)
  | Except.ok out =>
    let response_content := out.getD noOutputDefault
    ChatOutcome.ok response_content
      (hist ++ [⟨"user", question⟩, ⟨"assistant", response_content⟩])
      env.updateOk

/-- The development fallback (main.py lines 793-804), reachable only with
`current_df` still `None`: serve the cached globals when the session id
matches the cached one, else a 400. -/
def chatFallback (env : ChatEnv) (session_id question : String)
    (hist : List ChatMsg) : ChatOutcome :=
  if env.gSid = some session_id ∧ env.gDf.isSome then chatAgent env question hist
  else
    ChatOutcome.httpError 400
      "No data context available for chat. Please upload and invoke analysis first via /invoke."

/-- The body after session loading, with `current_df` as the code's
variable: the fallback guard fires only when it is still `None`. -/
def chatWithDf (env : ChatEnv) (session_id question : String)
    (current_df : Option (List Row)) (hist : List ChatMsg) : ChatOutcome :=
  match current_df with
  | none => chatFallback env session_id question hist
  | some _ => chatAgent env question hist

/-- `chat_with_insight` (`POST /chat`): fetch the authoritative record —
404 when absent — download and deserialize the table blob — 500 when that
fails — then run the agent with the stored history; the fetched DataFrame
is in hand, so the fallback guard can no longer fire. -/
def chat_with_insight (env : ChatEnv) (session_id question : String) :
    ChatOutcome :=
  match env.fetchSession session_id with
  | none =>
    ChatOutcome.httpError 404 ("Session " ++ session_id ++ " not found or expired.")
  | some r =>
    match env.downloadDf r.dataframe_storage_path with
    | none =>
      ChatOutcome.httpError 500
        ("Failed to retrieve DataFrame from storage for session " ++ session_id ++ ".")
    | some df => chatWithDf env session_id question (some df) r.chat_history

/-- Fallback-cache state used by the C4 instance: the cache holds a table
and even the very session id being asked about. -/
def ghostFetch : String → Option ChatSessionRec := fun _ => none

/-- A stored session with two prior turns. -/
def chatRecC : ChatSessionRec :=
  { dataframe_storage_path := "processed_data/sid-1.parquet",
    initial_analysis := some "analysis",
    chat_history := [⟨"user", "q0"⟩, ⟨"assistant", "a0"⟩] }

/-- A `/chat` environment whose history update fails. -/
def chatEnvC : ChatEnv :=
  { fetchSession := fun s => if s = "sid-1" then some chatRecC else none,
    downloadDf := fun p =>
      if p = "processed_data/sid-1.parquet" then some scenarioRows else none,
    agent := Except.ok (some "The answer."),
    updateOk := false,
    gDf := none,
    gAnalysis := "",
    gSid := none }

/-! ## `GET /session/{id}` and `GET /sessions` (main.py lines 958-1049) -/
/-- The response shape both endpoints build (`SessionDataResponse`). -/
structure SessionView where
  session_id : String
  dataframe_storage_path : String
  initial_analysis : Option String
  chat_history : List Json
  categorized_insights : List Json

/-- `.get(key, [])` followed by the `isinstance(..., list)` check: a
missing, null or non-list stored value is replaced by the empty list. -/
def coerceListField (raw : List (String × Json)) (key : String) : List Json :=
  match lookupKey raw key with
  | some (Json.arr xs) => xs
  | some _ => []
  | none => []

/-- A string column of the raw record; the identifier columns are present
and string-valued for every record the Data Loader inserts, so the default
is never taken on real rows. -/
def strField (raw : List (String × Json)) (key : String) : String :=
  match lookupKey raw key with
  | some (Json.str s) => s
  | _ => ""

/-- `.get("initial_analysis")`: the stored text or null. -/
def optStrField (raw : List (String × Json)) (key : String) : Option String :=
  match lookupKey raw key with
  | some (Json.str s) => some s
  | _ => none

/-- `get_session_data` on a found record (main.py lines 969-992). -/
def get_session_data (raw : List (String × Json)) : SessionView :=
  { session_id := strField raw "session_id",
    dataframe_storage_path := strField raw "dataframe_storage_path",
    initial_analysis := optStrField raw "initial_analysis",
    chat_history := coerceListField raw "chat_history",
    categorized_insights := coerceListField raw "categorized_insights" }

/-- `get_all_sessions` (main.py lines 1014-1043): every fetched record is
mapped through the same list coercions (`initial_analysis` defaulting to
the empty string on this endpoint). -/
def get_all_sessions (raws : List (List (String × Json))) : List SessionView :=
  raws.map (fun raw =>
    { session_id := strField raw "session_id",
      dataframe_storage_path := strField raw "dataframe_storage_path",
      initial_analysis := some (strField raw "initial_analysis"),
      chat_history := coerceListField raw "chat_history",
      categorized_insights := coerceListField raw "categorized_insights" })

/-- A stored record with a null history and a one-element insight list. -/
def rawNullHistory : List (String × Json) :=
  [("session_id", Json.str "s"), ("dataframe_storage_path", Json.str "p"),
   ("chat_history", Json.null), ("categorized_insights", Json.arr [Json.str "x"])]

/-! ## Theorems -/

/-! ### Lemmas about the dict primitives -/
theorem lookupKey_setKey_self (kvs : List (String × Json)) (k : String) (v : Json) :
    lookupKey (setKey kvs k v) k = some v := by
  induction kvs with
  | nil => simp [setKey, lookupKey]
  | cons hd tl ih =>
    obtain ⟨k', v'⟩ := hd
    by_cases h : k' = k
    · simp [setKey, h, lookupKey]
    · simp [setKey, h, lookupKey, ih]

theorem lookupKey_setKey_ne (kvs : List (String × Json)) (k k' : String) (v : Json)
    (h : k' ≠ k) : lookupKey (setKey kvs k v) k' = lookupKey kvs k' := by
  induction kvs with
  | nil =>
    simp only [setKey, lookupKey]
    rw [if_neg fun hh => h hh.symm]
  | cons hd tl ih =>
    obtain ⟨k₀, v₀⟩ := hd
    by_cases h0 : k₀ = k
    · subst h0
      simp only [setKey, if_pos rfl, lookupKey]
      rw [if_neg fun hh => h hh.symm, if_neg fun hh => h hh.symm]
    · simp only [setKey, if_neg h0, lookupKey]
      by_cases h1 : k₀ = k'
      · simp [h1]
      · simp [h1, ih]

/-! ### Soundness lemmas for the matcher -/
theorem tryDown_sound (f : Nat → Option Nat) (k r : Nat) (h : tryDown f k = some r) :
    ∃ k', k' ≤ k ∧ f k' = some r := by
  induction k with
  | zero => exact ⟨0, Nat.le_refl 0, h⟩
  | succ k ih =>
    cases hf : f (k + 1) with
    | some v =>
      simp only [tryDown, hf] at h
      exact ⟨k + 1, Nat.le_refl _, by rw [hf, h]⟩
    | none =>
      simp only [tryDown, hf] at h
      obtain ⟨k', hk, hfk⟩ := ih h
      exact ⟨k', Nat.le_succ_of_le hk, hfk⟩

theorem tryUpAux_sound (f : Nat → Option Nat) (n : Nat) (k r : Nat)
    (h : tryUpAux f n k = some r) : ∃ k', f k' = some r := by
  induction n generalizing k with
  | zero => exact ⟨k, h⟩
  | succ n ih =>
    cases hf : f k with
    | some v =>
      simp only [tryUpAux, hf] at h
      exact ⟨k, by rw [hf, h]⟩
    | none =>
      simp only [tryUpAux, hf] at h
      exact ih (k + 1) h

/-- Every character of every literal token of a successful anchored match
occurs among the consumed characters. -/
theorem matchToks_lit_chars (toks : List Tok) (s : List Char) (n : Nat) (w : List Char)
    (c : Char) (h : matchToks toks s = some n) (hw : Tok.lit w ∈ toks) (hc : c ∈ w) :
    c ∈ s.take n := by
  induction toks generalizing s n with
  | nil => simp at hw
  | cons t rest ih =>
    cases t with
    | lit u =>
      simp only [matchToks] at h
      by_cases hp : u.isPrefixOf s
      · rw [if_pos hp] at h
        cases hm : matchToks rest (s.drop u.length) with
        | none => rw [hm] at h; simp at h
        | some m =>
          rw [hm] at h
          simp only [Option.map_some', Option.some.injEq] at h
          have htu : s.take u.length = u :=
            (List.prefix_iff_eq_take.mp (List.isPrefixOf_iff_prefix.mp hp)).symm
          have hsplit : s.take n = u ++ (s.drop u.length).take m := by
            rw [← h, List.take_add, htu]
          rcases List.mem_cons.mp hw with hw1 | hw2
          · have hwu : w = u := by injection hw1
            rw [hsplit]
            exact List.mem_append_left _ (hwu ▸ hc)
          · rw [hsplit]
            exact List.mem_append_right _ (ih _ _ hm hw2)
      · rw [if_neg hp] at h; exact Option.noConfusion h
    | starNeg ch =>
      simp only [matchToks] at h
      obtain ⟨k', _, hfk⟩ := tryDown_sound _ _ _ h
      cases hm : matchToks rest (s.drop k') with
      | none => rw [hm] at hfk; simp at hfk
      | some m =>
        rw [hm] at hfk
        simp only [Option.map_some', Option.some.injEq] at hfk
        have hw' : Tok.lit w ∈ rest := by
          rcases List.mem_cons.mp hw with h1 | h2
          · exact absurd h1 (by simp)
          · exact h2
        have hmem := ih _ _ hm hw'
        rw [← hfk, List.take_add]
        exact List.mem_append_right _ hmem
    | starAnyLazy =>
      simp only [matchToks] at h
      obtain ⟨k', hfk⟩ := tryUpAux_sound _ _ _ _ h
      cases hm : matchToks rest (s.drop k') with
      | none => rw [hm] at hfk; simp at hfk
      | some m =>
        rw [hm] at hfk
        simp only [Option.map_some', Option.some.injEq] at hfk
        have hw' : Tok.lit w ∈ rest := by
          rcases List.mem_cons.mp hw with h1 | h2
          · exact absurd h1 (by simp)
          · exact h2
        have hmem := ih _ _ hm hw'
        rw [← hfk, List.take_add]
        exact List.mem_append_right _ hmem

/-- A successful anchored match of a literal-headed token sequence
consumes that literal first. -/
theorem matchToks_lit_head (w : List Char) (rest : List Tok) (s : List Char) (n : Nat)
    (h : matchToks (Tok.lit w :: rest) s = some n) :
    s.take w.length = w ∧ ∃ m, matchToks rest (s.drop w.length) = some m ∧ n = w.length + m := by
  simp only [matchToks] at h
  by_cases hp : w.isPrefixOf s
  · rw [if_pos hp] at h
    cases hm : matchToks rest (s.drop w.length) with
    | none => rw [hm] at h; exact Option.noConfusion h
    | some m =>
      rw [hm] at h
      simp only [Option.map_some', Option.some.injEq] at h
      exact ⟨(List.prefix_iff_eq_take.mp (List.isPrefixOf_iff_prefix.mp hp)).symm,
             m, rfl, h.symm⟩
  · rw [if_neg hp] at h; exact Option.noConfusion h

/-- A successful `re.search` is a successful anchored match on a suffix. -/
theorem searchPattern_sound (toks : List Tok) (text : List Char) (m : List Char)
    (h : searchPattern toks text = some m) :
    ∃ pre s n, text = pre ++ s ∧ matchToks toks s = some n ∧ m = s.take n := by
  induction text with
  | nil =>
    simp only [searchPattern] at h
    cases hm : matchToks toks [] with
    | none => rw [hm] at h; simp at h
    | some n =>
      rw [hm] at h
      simp only [Option.map_some', Option.some.injEq] at h
      exact ⟨[], [], n, rfl, hm, h.symm⟩
  | cons c rest ih =>
    simp only [searchPattern] at h
    cases hm : matchToks toks (c :: rest) with
    | some n =>
      rw [hm] at h
      simp only [Option.some.injEq] at h
      exact ⟨[], c :: rest, n, rfl, hm, h.symm⟩
    | none =>
      rw [hm] at h
      obtain ⟨pre, s, n, he, hmt, hms⟩ := ih h
      exact ⟨c :: pre, s, n, by rw [he]; rfl, hmt, hms⟩

/-- A match of either `insights` pattern exhibits a `{` strictly before
a `}` in the searched text. -/
theorem searchPattern_brace_pair (mid : List Tok) (text m : List Char)
    (hmem : Tok.lit ['}'] ∈ mid)
    (h : searchPattern (Tok.lit ['{'] :: mid) text = some m) :
    ∃ i j : Nat, i < j ∧ text[i]? = some '{' ∧ text[j]? = some '}' := by
  obtain ⟨pre, s, n, he, hmt, _⟩ := searchPattern_sound _ _ _ h
  obtain ⟨hhead, mm, _, hn⟩ := matchToks_lit_head _ _ _ _ hmt
  have hbrace : '}' ∈ s.take n :=
    matchToks_lit_chars _ _ _ _ _ hmt (List.mem_cons_of_mem _ hmem) (by simp)
  cases s with
  | nil => simp at hhead
  | cons a s₁ =>
    have ha : a = '{' := by
      simpa using hhead
    have htake : (a :: s₁).take n = a :: s₁.take mm := by
      rw [hn, show (['{'] : List Char).length = 1 from rfl, Nat.add_comm, List.take_succ_cons]
    rw [htake, ha] at hbrace
    have hbr₁ : '}' ∈ s₁ := by
      rcases List.mem_cons.mp hbrace with h1 | h2
      · exact absurd h1 (by decide)
      · exact List.mem_of_mem_take h2
    obtain ⟨t, ht, hte⟩ := List.mem_iff_getElem.mp hbr₁
    refine ⟨pre.length, pre.length + (1 + t), by omega, ?_, ?_⟩
    · rw [he, List.getElem?_append_right (Nat.le_refl _)]
      simp [ha]
    · rw [he, List.getElem?_append_right (by omega : pre.length ≤ pre.length + (1 + t))]
      have h2 : pre.length + (1 + t) - pre.length = t + 1 := by omega
      rw [h2]
      simp only [List.getElem?_cons_succ]
      rw [List.getElem?_eq_getElem ht, hte]

/-! ### Index lemmas for `find` / `rfind` -/
theorem firstIdxOf_self (c : Char) (text : List Char) (f : Nat)
    (h : firstIdxOf c text = some f) : text[f]? = some c := by
  induction text generalizing f with
  | nil => simp [firstIdxOf] at h
  | cons x xs ih =>
    simp only [firstIdxOf] at h
    by_cases hx : x = c
    · rw [if_pos hx] at h
      simp only [Option.some.injEq] at h
      rw [← h]
      simp [hx]
    · rw [if_neg hx] at h
      cases hf : firstIdxOf c xs with
      | none => rw [hf] at h; simp at h
      | some k =>
        rw [hf] at h
        simp only [Option.map_some', Option.some.injEq] at h
        rw [← h]
        simpa using ih k hf

theorem firstIdxOf_min (c : Char) (text : List Char) (i : Nat)
    (hi : text[i]? = some c) : ∃ f, firstIdxOf c text = some f ∧ f ≤ i := by
  induction text generalizing i with
  | nil => simp at hi
  | cons x xs ih =>
    by_cases hx : x = c
    · exact ⟨0, by simp [firstIdxOf, hx], Nat.zero_le _⟩
    · cases i with
      | zero =>
        simp only [List.getElem?_cons_zero, Option.some.injEq] at hi
        exact absurd hi hx
      | succ i' =>
        have hi' : xs[i']? = some c := by simpa using hi
        obtain ⟨f, hf, hle⟩ := ih i' hi'
        exact ⟨f + 1, by simp [firstIdxOf, hx, hf], Nat.succ_le_succ hle⟩

theorem lastIdxOf_self (c : Char) (text : List Char) (l : Nat)
    (h : lastIdxOf c text = some l) : text[l]? = some c := by
  induction text generalizing l with
  | nil => simp [lastIdxOf] at h
  | cons x xs ih =>
    simp only [lastIdxOf] at h
    cases hf : lastIdxOf c xs with
    | some k =>
      rw [hf] at h
      simp only [Option.some.injEq] at h
      rw [← h]
      simpa using ih k hf
    | none =>
      rw [hf] at h
      by_cases hx : x = c
      · rw [if_pos hx] at h
        simp only [Option.some.injEq] at h
        rw [← h]
        simp [hx]
      · rw [if_neg hx] at h; simp at h

theorem lastIdxOf_max (c : Char) (text : List Char) (j : Nat)
    (hj : text[j]? = some c) : ∃ l, lastIdxOf c text = some l ∧ j ≤ l := by
  induction text generalizing j with
  | nil => simp at hj
  | cons x xs ih =>
    cases j with
    | zero =>
      have hx : x = c := by simpa using hj
      cases hl : lastIdxOf c xs with
      | some k => exact ⟨k + 1, by simp [lastIdxOf, hl], Nat.zero_le _⟩
      | none => exact ⟨0, by simp [lastIdxOf, hl, hx], Nat.le_refl 0⟩
    | succ j' =>
      have hj' : xs[j']? = some c := by simpa using hj
      obtain ⟨l, hl, hge⟩ := ih j' hj'
      exact ⟨l + 1, by simp [lastIdxOf, hl], Nat.succ_le_succ hge⟩

/-- When the last `}` of the text lies strictly before the first `{`, the
strategy-3 pattern search cannot succeed. -/
theorem strategy3_nil_of_crossed (text : List Char) (f l : Nat)
    (hf : firstIdxOf '{' text = some f) (hl : lastIdxOf '}' text = some l)
    (hlf : l < f) : strategy3 text = [] := by
  have hnone : ∀ mid (m : List Char), Tok.lit ['}'] ∈ mid →
      searchPattern (Tok.lit ['{'] :: mid) text ≠ some m := by
    intro mid m hmem hs
    obtain ⟨i, j, hij, hib, hjb⟩ := searchPattern_brace_pair mid text m hmem hs
    obtain ⟨f', hf', hfi⟩ := firstIdxOf_min '{' text i hib
    obtain ⟨l', hl', hjl⟩ := lastIdxOf_max '}' text j hjb
    rw [hf] at hf'
    rw [hl] at hl'
    have : f = f' := by injection hf'
    have : l = l' := by injection hl'
    omega
  unfold strategy3
  cases hs1 : searchPattern patInsightsArr text with
  | some m => exact absurd hs1 (hnone _ m (by decide))
  | none =>
    cases hs2 : searchPattern patInsightsObj text with
    | some m => exact absurd hs2 (hnone _ m (by decide))
    | none => rfl

/-- `strategy3` is the optional strategy (c) with empty-string fall-through. -/
theorem strategy3_eq_specC (text : List Char) :
    strategy3 text = (specStrategyC text).getD [] := by
  unfold strategy3 specStrategyC
  cases searchPattern patInsightsArr text with
  | some m => rfl
  | none =>
    cases searchPattern patInsightsObj text with
    | some m => rfl
    | none => rfl

/-- C9: `extract_json_from_text` tries its strategies in fixed priority
order with the first success winning — (a) fenced code-block contents, taken
only when the stripped contents start with `{` and end with `}`; otherwise
(b) the substring from the first `{` to the last `}`, taken only when its
`{`/`}` counts are equal; otherwise (c) the `insights`-anchored pattern
search — and returns the empty string when all strategies fail. -/
theorem C9_extract_json_strategy_chain (text : List Char) :
    extract_json_from_text text = extractJsonSpec text
    ∧ (tryCodeBlocks [jsonFenceLit, fenceLit] text = none →
       specStrategyB text = none → specStrategyC text = none →
       extract_json_from_text text = []) := by
  have heq : extract_json_from_text text = extractJsonSpec text := by
    unfold extract_json_from_text extractJsonSpec
    cases htc : tryCodeBlocks [jsonFenceLit, fenceLit] text with
    | some c => rfl
    | none =>
      cases hf : firstIdxOf '{' text with
      | none =>
        simp only [specStrategyB, hf]
        exact strategy3_eq_specC text
      | some f =>
        cases hl : lastIdxOf '}' text with
        | none =>
          simp only [specStrategyB, hf, hl]
          exact strategy3_eq_specC text
        | some l =>
          simp only [specStrategyB, hf, hl]
          by_cases hfl : f < l
          · rw [if_pos hfl]
            by_cases hcnt : ((text.drop f).take (l + 1 - f)).count '{' =
                ((text.drop f).take (l + 1 - f)).count '}'
            · rw [if_pos hcnt, if_pos hcnt]
            · rw [if_neg hcnt, if_neg hcnt]
              exact strategy3_eq_specC text
          · rw [if_neg hfl]
            have hfc : text[f]? = some '{' := firstIdxOf_self _ _ _ hf
            have hlc : text[l]? = some '}' := lastIdxOf_self _ _ _ hl
            have hne : f ≠ l := by
              intro hh
              rw [hh, hlc] at hfc
              simp at hfc
            have hlf : l < f := by omega
            have hslice : l + 1 - f = 0 := by omega
            rw [hslice]
            simp only [List.take_zero, List.count_nil, if_true]
            exact strategy3_nil_of_crossed text f l hf hl hlf
  refine ⟨heq, fun htc hb hc => ?_⟩
  rw [heq]
  unfold extractJsonSpec
  rw [htc, hb, hc]
  rfl

/-- Concrete instance of C9's fall-through clause: on a bracket-free text
all three strategies fail and the extractor returns the empty string. -/
theorem C9_extract_json_strategy_chain_witness :
    tryCodeBlocks [jsonFenceLit, fenceLit] "abc".toList = none
    ∧ specStrategyB "abc".toList = none
    ∧ specStrategyC "abc".toList = none
    ∧ extract_json_from_text "abc".toList = [] :=
  ⟨rfl, rfl, rfl, (C9_extract_json_strategy_chain "abc".toList).2 rfl rfl rfl⟩

theorem isSome_lookupKey_setKey (kvs : List (String × Json)) (k k' : String) (v : Json)
    (h : (lookupKey kvs k').isSome) : (lookupKey (setKey kvs k v) k').isSome := by
  by_cases hk : k' = k
  · subst hk
    rw [lookupKey_setKey_self]
    rfl
  · rw [lookupKey_setKey_ne _ _ _ _ hk]
    exact h

/-- Properties of the `data`-repair step of the validation loop, given the
facts already established for the trend-repaired binding list. -/
theorem dataRepair_props (kvs1 kvs2 : List (String × Json))
    (hk : kvs2 = match lookupKey kvs1 "data" with
                 | some (Json.arr _) => kvs1
                 | _ => setKey kvs1 "data" (Json.arr []))
    (htrend1 : trendOk (lookupKey kvs1 "trend") = true)
    (hall1 : ∀ f ∈ requiredFields, (lookupKey kvs1 f).isSome = true) :
    hasAllRequired (Json.obj kvs2) = true
    ∧ trendOk (lookupKey kvs2 "trend") = true
    ∧ (∃ ds, lookupKey kvs2 "data" = some (Json.arr ds)) := by
  have hsetCase : kvs2 = setKey kvs1 "data" (Json.arr []) →
      hasAllRequired (Json.obj kvs2) = true
      ∧ trendOk (lookupKey kvs2 "trend") = true
      ∧ (∃ ds, lookupKey kvs2 "data" = some (Json.arr ds)) := by
    intro hk2
    subst hk2
    refine ⟨?_, ?_, ⟨[], lookupKey_setKey_self _ _ _⟩⟩
    · simp only [hasAllRequired, List.all_eq_true]
      intro f hf
      exact isSome_lookupKey_setKey _ _ _ _ (hall1 f hf)
    · rw [lookupKey_setKey_ne _ _ _ _ (by decide)]
      exact htrend1
  rcases hd : lookupKey kvs1 "data" with _ | v
  · rw [hd] at hk
    exact hsetCase hk
  · cases v with
    | arr ds =>
      rw [hd] at hk
      subst hk
      refine ⟨?_, htrend1, ⟨ds, hd⟩⟩
      simp only [hasAllRequired, List.all_eq_true]
      exact hall1
    | null => rw [hd] at hk; exact hsetCase hk
    | bool b => rw [hd] at hk; exact hsetCase hk
    | num n => rw [hd] at hk; exact hsetCase hk
    | str s => rw [hd] at hk; exact hsetCase hk
    | obj kvs => rw [hd] at hk; exact hsetCase hk

/-- Validation outputs carry every required field, an in-enum trend, and a
list-valued `data`. -/
theorem validateInsight_props (x j : Json) (h : validateInsight x = some j) :
    hasAllRequired j = true
    ∧ trendOk (trendField j) = true
    ∧ ∃ ds, dataField j = some (Json.arr ds) := by
  cases x with
  | obj kvs =>
    simp only [validateInsight] at h
    by_cases hall : requiredFields.all (fun f => (lookupKey kvs f).isSome) = true
    · rw [if_pos hall] at h
      simp only [Option.some.injEq] at h
      have hallm : ∀ f ∈ requiredFields, (lookupKey kvs f).isSome = true :=
        List.all_eq_true.mp hall
      set kvs1 := if trendOk (lookupKey kvs "trend") then kvs
                  else setKey kvs "trend" (Json.str "stable") with hkvs1
      have htrend1 : trendOk (lookupKey kvs1 "trend") = true := by
        rw [hkvs1]
        by_cases ht : trendOk (lookupKey kvs "trend") = true
        · rw [if_pos ht]
          exact ht
        · rw [if_neg ht, lookupKey_setKey_self]
          rfl
      have hall1 : ∀ f ∈ requiredFields, (lookupKey kvs1 f).isSome = true := by
        intro f hf
        rw [hkvs1]
        by_cases ht : trendOk (lookupKey kvs "trend") = true
        · rw [if_pos ht]
          exact hallm f hf
        · rw [if_neg ht]
          exact isSome_lookupKey_setKey _ _ _ _ (hallm f hf)
      obtain ⟨h1, h2, h3⟩ := dataRepair_props kvs1 _ rfl htrend1 hall1
      rw [← h]
      exact ⟨h1, h2, h3⟩
    · rw [if_neg hall] at h
      exact Option.noConfusion h
  | null => exact Option.noConfusion h
  | bool b => exact Option.noConfusion h
  | num n => exact Option.noConfusion h
  | str s => exact Option.noConfusion h
  | arr xs => exact Option.noConfusion h

/-- The `data`-repair step, with the exact lookups it yields. -/
theorem dataRepair_lookup (kvs1 : List (String × Json)) :
    ∃ kvs2, (match lookupKey kvs1 "data" with
             | some (Json.arr _) => kvs1
             | _ => setKey kvs1 "data" (Json.arr [])) = kvs2
      ∧ lookupKey kvs2 "trend" = lookupKey kvs1 "trend"
      ∧ ((∀ ds, lookupKey kvs1 "data" ≠ some (Json.arr ds)) →
          lookupKey kvs2 "data" = some (Json.arr []))
      ∧ (∀ ds, lookupKey kvs1 "data" = some (Json.arr ds) →
          lookupKey kvs2 "data" = some (Json.arr ds)) := by
  rcases hd : lookupKey kvs1 "data" with _ | v
  · exact ⟨setKey kvs1 "data" (Json.arr []), rfl,
      lookupKey_setKey_ne _ _ _ _ (by decide),
      fun _ => lookupKey_setKey_self _ _ _,
      fun ds hds => Option.noConfusion hds⟩
  · cases v with
    | arr ds =>
      exact ⟨kvs1, rfl, rfl, fun hne => absurd rfl (hne ds),
        fun ds' hds' => hd.trans hds'⟩
    | null =>
      exact ⟨setKey kvs1 "data" (Json.arr []), rfl,
        lookupKey_setKey_ne _ _ _ _ (by decide),
        fun _ => lookupKey_setKey_self _ _ _,
        fun ds hds => by simp at hds⟩
    | bool b =>
      exact ⟨setKey kvs1 "data" (Json.arr []), rfl,
        lookupKey_setKey_ne _ _ _ _ (by decide),
        fun _ => lookupKey_setKey_self _ _ _,
        fun ds hds => by simp at hds⟩
    | num n =>
      exact ⟨setKey kvs1 "data" (Json.arr []), rfl,
        lookupKey_setKey_ne _ _ _ _ (by decide),
        fun _ => lookupKey_setKey_self _ _ _,
        fun ds hds => by simp at hds⟩
    | str s =>
      exact ⟨setKey kvs1 "data" (Json.arr []), rfl,
        lookupKey_setKey_ne _ _ _ _ (by decide),
        fun _ => lookupKey_setKey_self _ _ _,
        fun ds hds => by simp at hds⟩
    | obj kvs' =>
      exact ⟨setKey kvs1 "data" (Json.arr []), rfl,
        lookupKey_setKey_ne _ _ _ _ (by decide),
        fun _ => lookupKey_setKey_self _ _ _,
        fun ds hds => by simp at hds⟩

/-- Characterisation of validation on an object with all required fields:
the item is kept, a bad trend is overwritten with `"stable"` and a good one
kept, a non-list `data` is overwritten with `[]` and a list kept. -/
theorem validateInsight_obj (kvs : List (String × Json))
    (hall : requiredFields.all (fun f => (lookupKey kvs f).isSome) = true) :
    ∃ kvs2, validateInsight (Json.obj kvs) = some (Json.obj kvs2)
      ∧ (trendOk (lookupKey kvs "trend") = false →
          lookupKey kvs2 "trend" = some (Json.str "stable"))
      ∧ (trendOk (lookupKey kvs "trend") = true →
          lookupKey kvs2 "trend" = lookupKey kvs "trend")
      ∧ ((∀ ds, lookupKey kvs "data" ≠ some (Json.arr ds)) →
          lookupKey kvs2 "data" = some (Json.arr []))
      ∧ (∀ ds, lookupKey kvs "data" = some (Json.arr ds) →
          lookupKey kvs2 "data" = some (Json.arr ds)) := by
  by_cases ht : trendOk (lookupKey kvs "trend") = true
  · obtain ⟨kvs2, hk2, htr, hdn, hda⟩ := dataRepair_lookup kvs
    have heq : validateInsight (Json.obj kvs) = some (Json.obj kvs2) := by
      simp only [validateInsight, hall, if_true, ht]
      rw [hk2]
    refine ⟨kvs2, heq, ?_, fun _ => htr, hdn, hda⟩
    intro hf
    rw [ht] at hf
    exact Bool.noConfusion hf
  · obtain ⟨kvs2, hk2, htr, hdn, hda⟩ :=
      dataRepair_lookup (setKey kvs "trend" (Json.str "stable"))
    have hdata_eq : lookupKey (setKey kvs "trend" (Json.str "stable")) "data"
        = lookupKey kvs "data" := lookupKey_setKey_ne _ _ _ _ (by decide)
    have heq : validateInsight (Json.obj kvs) = some (Json.obj kvs2) := by
      simp only [validateInsight, hall, if_true, if_neg ht]
      rw [hk2]
    refine ⟨kvs2, heq, ?_, fun htrue => absurd htrue ht, ?_, ?_⟩
    · intro _
      rw [htr]
      exact lookupKey_setKey_self _ _ _
    · intro hne
      refine hdn (fun ds => ?_)
      rw [hdata_eq]
      exact hne ds
    · intro ds hds
      refine hda ds ?_
      rw [hdata_eq]
      exact hds

/-- Every path of `parse_insights_node` produces either the empty list or a
fully validated list. -/
theorem parse_insights_structured_cases (analysis : String) (sid : Option String)
    (llm : Except String String) (jloads : String → Option Json) :
    (parse_insights_node analysis sid llm jloads).structured_insights = []
    ∨ ∃ xs, (parse_insights_node analysis sid llm jloads).structured_insights
        = validate_insights xs := by
  by_cases ha : analysis = ""
  · left
    simp [parse_insights_node, ha]
  · have hs : (parse_insights_node analysis sid llm jloads).structured_insights
        = parse_insights_final llm jloads := by
      simp [parse_insights_node, ha]
    rw [hs]
    cases llm with
    | error e => left; rfl
    | ok content =>
      by_cases hj : json_str_of content = ""
      · left; simp [parse_insights_final, hj]
      · rcases hl : jloads (json_str_of content) with _ | data
        · left; simp [parse_insights_final, hj, hl]
        · cases data with
          | obj kvs =>
            rcases hk : lookupKey kvs "insights" with _ | v
            · left; simp [parse_insights_final, hj, hl, hk]
            · cases v with
              | arr xs => right; exact ⟨xs, by simp [parse_insights_final, hj, hl, hk]⟩
              | null => left; simp [parse_insights_final, hj, hl, hk]
              | bool b => left; simp [parse_insights_final, hj, hl, hk]
              | num n => left; simp [parse_insights_final, hj, hl, hk]
              | str s => left; simp [parse_insights_final, hj, hl, hk]
              | obj kvs' => left; simp [parse_insights_final, hj, hl, hk]
          | null => left; simp [parse_insights_final, hj, hl]
          | bool b => left; simp [parse_insights_final, hj, hl]
          | num n => left; simp [parse_insights_final, hj, hl]
          | str s => left; simp [parse_insights_final, hj, hl]
          | arr xs => left; simp [parse_insights_final, hj, hl]

/-- C2: every insight item in the list `parse_insights_node` outputs and
persists carries all five required fields, an in-enum trend, and a
list-valued `data` field; an item missing any required field is dropped; an
item with all fields but an out-of-enum trend is kept with trend coerced to
`"stable"` (never dropped for that reason alone); a kept item whose `data`
is not a list has it coerced to the empty list. -/
theorem C2_insight_item_validation :
    (∀ (analysis : String) (sid : Option String) (llm : Except String String)
       (jloads : String → Option Json) (j : Json),
        j ∈ (parse_insights_node analysis sid llm jloads).structured_insights →
        hasAllRequired j = true ∧ trendOk (trendField j) = true
          ∧ ∃ ds, dataField j = some (Json.arr ds))
    ∧ (∀ x : Json, hasAllRequired x = false → validateInsight x = none)
    ∧ (∀ kvs, hasAllRequired (Json.obj kvs) = true →
        (validateInsight (Json.obj kvs)).isSome = true)
    ∧ (∀ kvs, hasAllRequired (Json.obj kvs) = true →
        trendOk (lookupKey kvs "trend") = false →
        ∃ kvs2, validateInsight (Json.obj kvs) = some (Json.obj kvs2)
          ∧ lookupKey kvs2 "trend" = some (Json.str "stable"))
    ∧ (∀ kvs, hasAllRequired (Json.obj kvs) = true →
        (∀ ds, lookupKey kvs "data" ≠ some (Json.arr ds)) →
        ∃ kvs2, validateInsight (Json.obj kvs) = some (Json.obj kvs2)
          ∧ lookupKey kvs2 "data" = some (Json.arr [])) := by
  refine ⟨?_, ?_, ?_, ?_, ?_⟩
  · intro analysis sid llm jloads j hj
    rcases parse_insights_structured_cases analysis sid llm jloads with hc | ⟨xs, hc⟩
    · rw [hc] at hj
      simp at hj
    · rw [hc] at hj
      simp only [validate_insights] at hj
      obtain ⟨x, _, hx⟩ := List.mem_filterMap.mp hj
      exact validateInsight_props x j hx
  · intro x hx
    cases x with
    | obj kvs =>
      have hf : requiredFields.all (fun f => (lookupKey kvs f).isSome) = false := hx
      simp [validateInsight, hf]
    | null => rfl
    | bool b => rfl
    | num n => rfl
    | str s => rfl
    | arr xs => rfl
  · intro kvs hall
    obtain ⟨kvs2, heq, _⟩ := validateInsight_obj kvs hall
    rw [heq]
    rfl
  · intro kvs hall ht
    obtain ⟨kvs2, heq, h1, _, _, _⟩ := validateInsight_obj kvs hall
    exact ⟨kvs2, heq, h1 ht⟩
  · intro kvs hall hne
    obtain ⟨kvs2, heq, _, _, h3, _⟩ := validateInsight_obj kvs hall
    exact ⟨kvs2, heq, h3 hne⟩

theorem C2_insight_item_validation_witness :
    ∃ kvs2, validateInsight (Json.obj sidewaysItem) = some (Json.obj kvs2)
      ∧ lookupKey kvs2 "trend" = some (Json.str "stable") :=
  C2_insight_item_validation.2.2.2.1 sidewaysItem (by decide) (by decide)

/-- C6: on every path — empty input, model failure, no extractable JSON
candidate, JSON parse failure, wrong top-level structure, or success —
`parse_insights_node` writes exactly its output list to the session's
`categorized_insights` whenever a session id is present (so a previously
stored value is never left stale); the output is `[]` on every error path
and the full validated list, with no truncation to five items, on
success. -/
theorem C6_parse_insights_overwrite
    (analysis : String) (sid : Option String) (llm : Except String String)
    (jloads : String → Option Json) :
    ((parse_insights_node analysis sid llm jloads).dbWrite
      = if sid.isSome
        then some (parse_insights_node analysis sid llm jloads).structured_insights
        else none)
    ∧ (analysis = "" →
        (parse_insights_node analysis sid llm jloads).structured_insights = [])
    ∧ (analysis ≠ "" →
        (parse_insights_node analysis sid llm jloads).structured_insights
          = parse_insights_final llm jloads)
    ∧ (∀ e, llm = Except.error e → parse_insights_final llm jloads = [])
    ∧ (∀ content, llm = Except.ok content → json_str_of content = "" →
        parse_insights_final llm jloads = [])
    ∧ (∀ content, llm = Except.ok content → json_str_of content ≠ "" →
        jloads (json_str_of content) = none → parse_insights_final llm jloads = [])
    ∧ (∀ content d, llm = Except.ok content → json_str_of content ≠ "" →
        jloads (json_str_of content) = some d → (∀ kvs, d ≠ Json.obj kvs) →
        parse_insights_final llm jloads = [])
    ∧ (∀ content kvs, llm = Except.ok content → json_str_of content ≠ "" →
        jloads (json_str_of content) = some (Json.obj kvs) →
        lookupKey kvs "insights" = none → parse_insights_final llm jloads = [])
    ∧ (∀ content kvs v, llm = Except.ok content → json_str_of content ≠ "" →
        jloads (json_str_of content) = some (Json.obj kvs) →
        lookupKey kvs "insights" = some v → (∀ xs, v ≠ Json.arr xs) →
        parse_insights_final llm jloads = [])
    ∧ (∀ content kvs xs, llm = Except.ok content → json_str_of content ≠ "" →
        jloads (json_str_of content) = some (Json.obj kvs) →
        lookupKey kvs "insights" = some (Json.arr xs) →
        parse_insights_final llm jloads = validate_insights xs) := by
  refine ⟨?_, ?_, ?_, ?_, ?_, ?_, ?_, ?_, ?_, ?_⟩
  · by_cases ha : analysis = "" <;> simp [parse_insights_node, ha]
  · intro ha
    simp [parse_insights_node, ha]
  · intro ha
    simp [parse_insights_node, ha]
  · intro e he
    subst he
    rfl
  · intro c hc hj
    subst hc
    simp [parse_insights_final, hj]
  · intro c hc hj hl
    subst hc
    simp [parse_insights_final, hj, hl]
  · intro c d hc hj hl hnd
    subst hc
    cases d with
    | obj kvs => exact absurd rfl (hnd kvs)
    | null => simp [parse_insights_final, hj, hl]
    | bool b => simp [parse_insights_final, hj, hl]
    | num n => simp [parse_insights_final, hj, hl]
    | str s => simp [parse_insights_final, hj, hl]
    | arr xs => simp [parse_insights_final, hj, hl]
  · intro c kvs hc hj hl hk
    subst hc
    simp [parse_insights_final, hj, hl, hk]
  · intro c kvs v hc hj hl hk hnv
    subst hc
    cases v with
    | arr xs => exact absurd rfl (hnv xs)
    | null => simp [parse_insights_final, hj, hl, hk]
    | bool b => simp [parse_insights_final, hj, hl, hk]
    | num n => simp [parse_insights_final, hj, hl, hk]
    | str s => simp [parse_insights_final, hj, hl, hk]
    | obj kvs' => simp [parse_insights_final, hj, hl, hk]
  · intro c kvs xs hc hj hl hk
    subst hc
    simp [parse_insights_final, hj, hl, hk]

theorem C6_parse_insights_overwrite_witness :
    (parse_insights_node "some analysis" (some "sess")
        (Except.ok sixInsightsText) sixJloads).dbWrite
      = some (parse_insights_node "some analysis" (some "sess")
          (Except.ok sixInsightsText) sixJloads).structured_insights
    ∧ (parse_insights_node "some analysis" (some "sess")
        (Except.ok sixInsightsText) sixJloads).structured_insights
      = validate_insights sixInsights
    ∧ (validate_insights sixInsights).length = 6 := by
  obtain ⟨h1, _, h3, _, _, _, _, _, _, h10⟩ :=
    C6_parse_insights_overwrite "some analysis" (some "sess")
      (Except.ok sixInsightsText) sixJloads
  have hjs : json_str_of sixInsightsText = sixInsightsText := rfl
  refine ⟨by simpa using h1, ?_, rfl⟩
  rw [h3 (by decide)]
  refine h10 sixInsightsText [("insights", Json.arr sixInsights)] sixInsights rfl ?_ ?_ rfl
  · rw [hjs]
    decide
  · rw [hjs]
    simp [sixJloads]

theorem firstIdxOf_none (c : Char) (text : List Char)
    (h : firstIdxOf c text = none) : ∀ i : Nat, text[i]? ≠ some c := by
  intro i hi
  obtain ⟨f, hf, _⟩ := firstIdxOf_min c text i hi
  rw [h] at hf
  exact Option.noConfusion hf

theorem firstBracketMatch_none_iff (text : List Char) :
    firstBracketMatch text = none ↔ noBracketPair text := by
  constructor
  · intro h i j hij hp
    obtain ⟨hib, hjb⟩ := hp
    rcases hfi : firstIdxOf '[' text with _ | i₀
    · exact firstIdxOf_none '[' text hfi i hib
    · rcases hfj : firstIdxOf ']' (text.drop (i₀ + 1)) with _ | k
      · obtain ⟨f, hf, hfle⟩ := firstIdxOf_min '[' text i hib
        rw [hfi] at hf
        have hif : i₀ = f := by injection hf
        have hj' : (text.drop (i₀ + 1))[j - (i₀ + 1)]? = some ']' := by
          rw [List.getElem?_drop,
              show i₀ + 1 + (j - (i₀ + 1)) = j from by omega]
          exact hjb
        exact firstIdxOf_none _ _ hfj _ hj'
      · simp [firstBracketMatch, hfi, hfj] at h
  · intro hnp
    rcases hfi : firstIdxOf '[' text with _ | i₀
    · simp [firstBracketMatch, hfi]
    · rcases hfj : firstIdxOf ']' (text.drop (i₀ + 1)) with _ | k
      · simp [firstBracketMatch, hfi, hfj]
      · exfalso
        have hib : text[i₀]? = some '[' := firstIdxOf_self _ _ _ hfi
        have hjb' : (text.drop (i₀ + 1))[k]? = some ']' := firstIdxOf_self _ _ _ hfj
        rw [List.getElem?_drop] at hjb'
        exact hnp i₀ (i₀ + 1 + k) (by omega) ⟨hib, hjb'⟩

/-! ### Idempotence of stripping -/
theorem dropWhile_dropWhile (p : Char → Bool) (l : List Char) :
    (l.dropWhile p).dropWhile p = l.dropWhile p := by
  induction l with
  | nil => rfl
  | cons a l ih =>
    by_cases h : p a
    · simp [List.dropWhile_cons, h, ih]
    · simp [List.dropWhile_cons, h]

theorem dropWhile_eq_self_of_prefix (p : Char → Bool) (l l' : List Char)
    (hl : l.dropWhile p = l) (hp : l' <+: l) : l'.dropWhile p = l' := by
  cases l' with
  | nil => rfl
  | cons a t =>
    cases l with
    | nil =>
      obtain ⟨r, hr⟩ := hp
      exact List.noConfusion hr
    | cons b t₂ =>
      obtain ⟨r, hr⟩ := hp
      have hab : a = b := by injection hr
      rw [List.dropWhile_cons] at hl
      by_cases hpb : p b
      · rw [if_pos hpb] at hl
        have hlen := congrArg List.length hl
        have hle := (List.dropWhile_suffix (l := t₂) p).length_le
        simp at hlen
        omega
      · rw [List.dropWhile_cons, if_neg (hab ▸ hpb)]

theorem stripChars_noLead (cs : List Char) :
    (stripChars cs).dropWhile isPySpace = stripChars cs := by
  apply dropWhile_eq_self_of_prefix _ (cs.dropWhile isPySpace) _
    (dropWhile_dropWhile _ _)
  rw [show cs.dropWhile isPySpace = (cs.dropWhile isPySpace).reverse.reverse from
       (List.reverse_reverse _).symm]
  exact List.reverse_prefix.mpr (List.dropWhile_suffix _)

theorem stripChars_reverse_noLead (cs : List Char) :
    (stripChars cs).reverse.dropWhile isPySpace = (stripChars cs).reverse := by
  unfold stripChars
  rw [List.reverse_reverse]
  exact dropWhile_dropWhile _ _

theorem stripChars_idem (cs : List Char) :
    stripChars (stripChars cs) = stripChars cs := by
  have h1 : stripChars (stripChars cs)
      = (((stripChars cs).dropWhile isPySpace).reverse.dropWhile isPySpace).reverse := rfl
  rw [h1, stripChars_noLead, stripChars_reverse_noLead, List.reverse_reverse]

theorem pyStrip_idem (s : String) : pyStrip (pyStrip s) = pyStrip s := by
  unfold pyStrip
  rw [show (String.mk (stripChars s.toList)).toList = stripChars s.toList from rfl,
      stripChars_idem]

/-- C5 (amended): for every analysis text and every model outcome the Tag
Extractor returns exactly the empty list when the model output contains no
bracketed list-like substring (likewise on empty input and on any model or
parse failure), and every returned tag is a nonempty already-stripped
string; the 3-10 range requested by the prompt is advisory only — the
returned list's length is not capped at 10. -/
theorem C5_tag_extractor (analysis : String) (llm : Except String String)
    (litEval : String → Option PyVal) :
    (∀ output, llm = Except.ok output → noBracketPair output.toList →
        categorize_insight_node analysis llm litEval = [])
    ∧ (∀ e, llm = Except.error e → categorize_insight_node analysis llm litEval = [])
    ∧ (analysis = "" → categorize_insight_node analysis llm litEval = [])
    ∧ (∀ t, t ∈ categorize_insight_node analysis llm litEval →
        t ≠ "" ∧ t = pyStrip t) := by
  refine ⟨?_, ?_, ?_, ?_⟩
  · intro output ho hnb
    subst ho
    have hfb : firstBracketMatch output.data = none :=
      (firstBracketMatch_none_iff _).mpr hnb
    by_cases ha : analysis = ""
    · simp [categorize_insight_node, ha]
    · simp [categorize_insight_node, ha, hfb]
  · intro e he
    subst he
    by_cases ha : analysis = "" <;> simp [categorize_insight_node, ha]
  · intro ha
    simp [categorize_insight_node, ha]
  · intro t ht
    by_cases ha : analysis = ""
    · simp [categorize_insight_node, ha] at ht
    · cases llm with
      | error e => simp [categorize_insight_node, ha] at ht
      | ok output =>
        rcases hfb : firstBracketMatch output.data with _ | ls
        · simp [categorize_insight_node, ha, hfb] at ht
        · rcases hle : litEval (String.mk ls) with _ | v
          · simp [categorize_insight_node, ha, hfb, hle] at ht
          · cases v with
            | list xs =>
              have hnode : categorize_insight_node analysis (Except.ok output) litEval
                  = xs.filterMap tagOfItem := by
                simp [categorize_insight_node, ha, hfb, hle]
              rw [hnode] at ht
              obtain ⟨it, _, hit⟩ := List.mem_filterMap.mp ht
              cases it with
              | str s =>
                simp only [tagOfItem] at hit
                by_cases hs : pyStrip s ≠ ""
                · rw [if_pos hs] at hit
                  injection hit with hit
                  subst hit
                  exact ⟨hs, (pyStrip_idem s).symm⟩
                · rw [if_neg hs] at hit
                  exact Option.noConfusion hit
              | list ys => exact Option.noConfusion hit
              | other => exact Option.noConfusion hit
            | str s => simp [categorize_insight_node, ha, hfb, hle] at ht
            | other => simp [categorize_insight_node, ha, hfb, hle] at ht

/-- Counterexample to C5 as stated: the code imposes no upper bound of 10
on the tag list — a model output listing eleven strings yields eleven
tags. -/
theorem C5_counterexample :
    ¬((categorize_insight_node "an analysis" (Except.ok elevenTagsOutput)
          literalEvalStrList).length ≤ 10) := by
  have hlen : (categorize_insight_node "an analysis" (Except.ok elevenTagsOutput)
      literalEvalStrList).length = 11 := rfl
  rw [hlen]
  decide

/-- Concrete instance of the amended C5: a bracket-free model output yields
the empty tag list. -/
theorem C5_tag_extractor_witness :
    categorize_insight_node "an analysis" (Except.ok "no tags were produced")
        literalEvalStrList = [] :=
  (C5_tag_extractor "an analysis" (Except.ok "no tags were produced")
      literalEvalStrList).1 "no tags were produced" rfl
    ((firstBracketMatch_none_iff _).mp rfl)

theorem chunkEntries_length (llm : Nat → String → Except String String)
    (headers : List String) (i : Nat) (cs : List (List Row)) :
    (chunkEntries llm headers i cs).length = cs.length := by
  induction cs generalizing i with
  | nil => rfl
  | cons c rest ih => simp [chunkEntries, ih]

theorem chunkEntries_getElem? (llm : Nat → String → Except String String)
    (headers : List String) (i k : Nat) (cs : List (List Row)) (c : List Row)
    (hc : cs[k]? = some c) :
    (chunkEntries llm headers i cs)[k]? = some (chunkEntry llm headers (i + k) c) := by
  induction cs generalizing i k with
  | nil => simp at hc
  | cons d rest ih =>
    cases k with
    | zero =>
      simp only [List.getElem?_cons_zero, Option.some.injEq] at hc
      subst hc
      simp [chunkEntries]
    | succ k' =>
      simp only [List.getElem?_cons_succ] at hc
      simp only [chunkEntries, List.getElem?_cons_succ]
      rw [ih (i + 1) k' hc, show i + 1 + k' = i + (k' + 1) from by omega]

theorem chunks_getElem? (data : List Row) (k : Nat)
    (hk : k < (data.length + 99) / 100) :
    (chunks data)[k]? = some ((data.drop (100 * k)).take 100) := by
  simp [chunks, chunkStarts, List.getElem?_map, List.getElem?_range hk]

/-- Peeling the first chunk off a non-empty table. -/
theorem chunks_drop (data : List Row) (hne : data ≠ []) :
    chunks data = data.take 100 :: chunks (data.drop 100) := by
  have hL : 1 ≤ data.length := List.length_pos.mpr hne
  have hn : (data.length + 99) / 100 = ((data.drop 100).length + 99) / 100 + 1 := by
    rw [List.length_drop]
    omega
  simp only [chunks, chunkStarts, hn, List.range_succ_eq_map, List.map_cons, List.map_map]
  refine List.cons_eq_cons.mpr ⟨by simp, ?_⟩
  apply List.map_congr_left
  intro k _
  simp only [Function.comp]
  rw [show (100 * Nat.succ k) = 100 + 100 * k from by omega, ← List.drop_drop]

/-- The chunks are a partition: concatenating them restores the table. -/
theorem chunks_flatten (data : List Row) : (chunks data).flatten = data := by
  by_cases hne : data = []
  · subst hne
    rfl
  · rw [chunks_drop data hne, List.flatten_cons, chunks_flatten (data.drop 100),
        List.take_append_drop]
termination_by data.length
decreasing_by
  have := List.length_pos.mpr hne
  simp only [List.length_drop]
  omega

/-- C1: for a non-empty table whose first row carries at least one column
key, and for every per-chunk model outcome, the Chunked Analyzer issues
exactly ceil(R/100) completion requests — one per contiguous 100-row chunk,
the last possibly smaller, the chunks concatenating back to the table — and
the combined analysis is the ordered concatenation of exactly ceil(R/100)
entries, entry k carrying the ascending 1-based label k+1, a chunk success
contributing a `Chunk N Summary` and a chunk failure an inline
`Chunk N Error: ...` marker instead of aborting the run. -/
theorem C1_chunked_analyzer (data : List Row)
    (llm : Nat → String → Except String String)
    (hne : data ≠ []) (hhdr : (data.head?.getD []).map Prod.fst ≠ []) :
    (analyze_data_node data llm).llm_requests = (data.length + 99) / 100
    ∧ (analyze_data_node data llm).combined_analysis.length = (data.length + 99) / 100
    ∧ 100 * ((data.length + 99) / 100 - 1) < data.length
    ∧ data.length ≤ 100 * ((data.length + 99) / 100)
    ∧ (chunks data).flatten = data
    ∧ (∀ k, k < (data.length + 99) / 100 →
        (analyze_data_node data llm).combined_analysis[k]?
          = some (chunkEntry llm ((data.head?.getD []).map Prod.fst) k
              ((data.drop (100 * k)).take 100)))
    ∧ (∀ k chunk, ∃ tail,
        chunkEntry llm ((data.head?.getD []).map Prod.fst) k chunk
          = "Chunk " ++ toString (k + 1) ++ tail
        ∧ ((∃ c, llm k (chunkPrompt
              (tableString ((data.head?.getD []).map Prod.fst) chunk)) = Except.ok c
            ∧ tail = " Summary:\n" ++ c ++ "\n")
          ∨ (∃ e, llm k (chunkPrompt
              (tableString ((data.head?.getD []).map Prod.fst) chunk)) = Except.error e
            ∧ tail = " Error: Error processing chunk " ++ toString (k + 1) ++ ": "
                ++ e ++ "\n")))
    ∧ (analyze_data_node data llm).analysis
        = String.intercalate "\n\n" (analyze_data_node data llm).combined_analysis := by
  have hie : data.isEmpty = false := by simp [List.isEmpty_eq_false, hne]
  have hhie : ((data.head?.getD []).map Prod.fst).isEmpty = false := by
    simp only [List.isEmpty_eq_false]
    exact hhdr
  have hnode : analyze_data_node data llm =
      { analysis := String.intercalate "\n\n"
          (chunkEntries llm ((data.head?.getD []).map Prod.fst) 0 (chunks data)),
        combined_analysis :=
          chunkEntries llm ((data.head?.getD []).map Prod.fst) 0 (chunks data),
        llm_requests := (chunks data).length } := by
    simp [analyze_data_node, hie, hhie]
  have hclen : (chunks data).length = (data.length + 99) / 100 := by
    simp [chunks, chunkStarts]
  have hL : 1 ≤ data.length := List.length_pos.mpr hne
  refine ⟨?_, ?_, by omega, by omega, chunks_flatten data, ?_, ?_, ?_⟩
  · rw [hnode]
    exact hclen
  · rw [hnode]
    simp only
    rw [chunkEntries_length, hclen]
  · intro k hk
    rw [hnode]
    simp only
    simpa using chunkEntries_getElem? llm _ 0 k _ _ (chunks_getElem? data k hk)
  · intro k chunk
    cases hc : llm k (chunkPrompt (tableString ((data.head?.getD []).map Prod.fst) chunk)) with
    | ok c =>
      refine ⟨" Summary:\n" ++ c ++ "\n", ?_, Or.inl ⟨c, rfl, rfl⟩⟩
      simp [chunkEntry, hc, String.append_assoc]
    | error e =>
      refine ⟨" Error: Error processing chunk " ++ toString (k + 1) ++ ": " ++ e ++ "\n",
        ?_, Or.inr ⟨e, rfl, rfl⟩⟩
      simp [chunkEntry, hc, String.append_assoc]
  · rw [hnode]

/-- Concrete instance of C1: two rows fit in one chunk, so exactly one
completion request is made and the combined analysis has exactly one
entry. -/
theorem C1_chunked_analyzer_witness :
    (analyze_data_node scenarioRows (fun _ _ => Except.ok "All good.")).llm_requests = 1
    ∧ (analyze_data_node scenarioRows
        (fun _ _ => Except.ok "All good.")).combined_analysis.length = 1 := by
  have h := C1_chunked_analyzer scenarioRows (fun _ _ => Except.ok "All good.")
    (by decide) (by decide)
  exact ⟨h.1.trans rfl, h.2.1.trans rfl⟩

/-- Every failure mode of the session-creation block inserts no record,
sets an error message, and returns an explicitly null session id. -/
theorem createSession_failures (env : LoadEnv) (rows : List Row) (desc : String)
    (h : dfEmpty rows = true
      ∨ env.upload ("processed_data/" ++ env.uuid ++ ".parquet") = false
      ∨ env.insertOk = false) :
    (createSession env rows desc).2.inserted = []
    ∧ (∃ m, (createSession env rows desc).1.error = some (some m))
    ∧ (createSession env rows desc).1.session_id = some none := by
  by_cases hd : dfEmpty rows = true
  · simp [createSession, hd]
  · have hd' : dfEmpty rows = false := by
      revert hd
      cases dfEmpty rows <;> simp
    rcases h with h | h | h
    · exact absurd h hd
    · simp [createSession, hd', h]
    · by_cases hu : env.upload ("processed_data/" ++ env.uuid ++ ".parquet") = true
      · simp [createSession, hd', hu, h]
      · have hu' : env.upload ("processed_data/" ++ env.uuid ++ ".parquet") = false := by
          revert hu
          cases env.upload ("processed_data/" ++ env.uuid ++ ".parquet") <;> simp
        simp [createSession, hd', hu']

/-- C7: for every invocation in which the input is empty, the spreadsheet
parse fails, the parsed table is empty, or the blob write or record insert
during session creation fails, no session record is inserted and the merged
pipeline state carries an error message together with a null session id
(the initial state's session id being null, as `/invoke` passes it). -/
theorem C7_load_data_failure_paths (env : LoadEnv) (payload : List Row)
    (s0 : PipeState) (hs0 : s0.session_id = none) :
    (payload = [] →
      (load_data_node env payload).2.inserted = []
      ∧ (applyUpdate s0 (load_data_node env payload).1).error.isSome = true
      ∧ (applyUpdate s0 (load_data_node env payload).1).session_id = none)
    ∧ (∀ p b e, supabasePath payload = some p → env.download p = DLResult.ok b →
        env.parseExcel b = Except.error e →
        (load_data_node env payload).2.inserted = []
        ∧ (applyUpdate s0 (load_data_node env payload).1).error.isSome = true
        ∧ (applyUpdate s0 (load_data_node env payload).1).session_id = none)
    ∧ (∀ p b rows, supabasePath payload = some p → env.download p = DLResult.ok b →
        env.parseExcel b = Except.ok rows → dfEmpty rows = true →
        (load_data_node env payload).2.inserted = []
        ∧ (applyUpdate s0 (load_data_node env payload).1).error.isSome = true
        ∧ (applyUpdate s0 (load_data_node env payload).1).session_id = none)
    ∧ (payload ≠ [] → supabasePath payload = none → env.directDfOk = true →
        dfEmpty payload = true →
        (load_data_node env payload).2.inserted = []
        ∧ (applyUpdate s0 (load_data_node env payload).1).error.isSome = true
        ∧ (applyUpdate s0 (load_data_node env payload).1).session_id = none)
    ∧ (payload ≠ [] → supabasePath payload = none → env.directDfOk = true →
        env.upload ("processed_data/" ++ env.uuid ++ ".parquet") = false →
        (load_data_node env payload).2.inserted = []
        ∧ (applyUpdate s0 (load_data_node env payload).1).error.isSome = true
        ∧ (applyUpdate s0 (load_data_node env payload).1).session_id = none)
    ∧ (payload ≠ [] → supabasePath payload = none → env.directDfOk = true →
        env.insertOk = false →
        (load_data_node env payload).2.inserted = []
        ∧ (applyUpdate s0 (load_data_node env payload).1).error.isSome = true
        ∧ (applyUpdate s0 (load_data_node env payload).1).session_id = none) := by
  have hCS : ∀ (rows : List Row) (desc : String),
      (dfEmpty rows = true
        ∨ env.upload ("processed_data/" ++ env.uuid ++ ".parquet") = false
        ∨ env.insertOk = false) →
      load_data_node env payload = createSession env rows desc →
      (load_data_node env payload).2.inserted = []
      ∧ (applyUpdate s0 (load_data_node env payload).1).error.isSome = true
      ∧ (applyUpdate s0 (load_data_node env payload).1).session_id = none := by
    intro rows desc hfail heq
    obtain ⟨h1, ⟨m, h2⟩, h3⟩ := createSession_failures env rows desc hfail
    rw [heq]
    exact ⟨h1, by simp [applyUpdate, h2], by simp [applyUpdate, h3]⟩
  have hne_of_sp : ∀ p, supabasePath payload = some p → payload.isEmpty = false := by
    intro p hsp
    cases payload with
    | nil => simp [supabasePath] at hsp
    | cons r t => rfl
  refine ⟨?_, ?_, ?_, ?_, ?_, ?_⟩
  · intro hpe
    subst hpe
    refine ⟨rfl, ?_, ?_⟩ <;> simp [load_data_node, applyUpdate]
  · intro p b e hsp hdl hpe
    have hie := hne_of_sp p hsp
    refine ⟨?_, ?_, ?_⟩ <;>
      simp [load_data_node, hie, hsp, hdl, hpe, applyUpdate, hs0]
  · intro p b rows hsp hdl hpe hde
    have hie := hne_of_sp p hsp
    exact hCS rows ("Supabase Storage: " ++ p) (Or.inl hde)
      (by simp [load_data_node, hie, hsp, hdl, hpe])
  · intro hne hsp hok hde
    have hie : payload.isEmpty = false := by simp [List.isEmpty_eq_false, hne]
    exact hCS payload "Directly provided data" (Or.inl hde)
      (by simp [load_data_node, hie, hsp, hok])
  · intro hne hsp hok hup
    have hie : payload.isEmpty = false := by simp [List.isEmpty_eq_false, hne]
    exact hCS payload "Directly provided data" (Or.inr (Or.inl hup))
      (by simp [load_data_node, hie, hsp, hok])
  · intro hne hsp hok hins
    have hie : payload.isEmpty = false := by simp [List.isEmpty_eq_false, hne]
    exact hCS payload "Directly provided data" (Or.inr (Or.inr hins))
      (by simp [load_data_node, hie, hsp, hok])

/-- Concrete instance of C7: an insert failure inserts nothing and leaves
an error with a null session id. -/
theorem C7_load_data_failure_paths_witness :
    (load_data_node loadEnvInsFail scenarioRows).2.inserted = []
    ∧ (applyUpdate initialPipeState
        (load_data_node loadEnvInsFail scenarioRows).1).error.isSome = true
    ∧ (applyUpdate initialPipeState
        (load_data_node loadEnvInsFail scenarioRows).1).session_id = none :=
  (C7_load_data_failure_paths loadEnvInsFail scenarioRows initialPipeState
      rfl).2.2.2.2.2 (by decide) (by decide) rfl rfl

/-- C3 (amended): on every successful direct-path load of a non-empty
table, the inserted session record is exactly `session_data`: its
`initial_analysis` is null, its `chat_history` is the empty list, its
expiry is exactly 24 hours from creation time — and it contains NO
`categorized_insights` key at all (that column is first written by the
Insight Extractor), while the returned state carries the generated session
id. -/
theorem C3_session_record (env : LoadEnv) (payload : List Row)
    (hne : payload ≠ []) (hsp : supabasePath payload = none)
    (hok : env.directDfOk = true) (hde : dfEmpty payload = false)
    (hup : env.upload ("processed_data/" ++ env.uuid ++ ".parquet") = true)
    (hins : env.insertOk = true) :
    (load_data_node env payload).2.inserted
      = [session_data env.uuid "Directly provided data"
          ("processed_data/" ++ env.uuid ++ ".parquet") env.now]
    ∧ lookupKey (session_data env.uuid "Directly provided data"
        ("processed_data/" ++ env.uuid ++ ".parquet") env.now) "initial_analysis"
      = some Json.null
    ∧ lookupKey (session_data env.uuid "Directly provided data"
        ("processed_data/" ++ env.uuid ++ ".parquet") env.now) "chat_history"
      = some (Json.arr [])
    ∧ lookupKey (session_data env.uuid "Directly provided data"
        ("processed_data/" ++ env.uuid ++ ".parquet") env.now) "expires_at"
      = some (Json.num (env.now + 24 * 3600))
    ∧ lookupKey (session_data env.uuid "Directly provided data"
        ("processed_data/" ++ env.uuid ++ ".parquet") env.now) "categorized_insights"
      = none
    ∧ (load_data_node env payload).1.session_id = some (some env.uuid) := by
  have hie : payload.isEmpty = false := by simp [List.isEmpty_eq_false, hne]
  refine ⟨?_, rfl, rfl, rfl, rfl, ?_⟩ <;>
    simp [load_data_node, hie, hsp, hok, createSession, hde, hup, hins]

/-- Counterexample to C3 as stated: on a concrete successful load the
inserted session record does not contain a `categorized_insights` field at
all, contradicting "present as an empty list, not absent". -/
theorem C3_counterexample :
    (load_data_node loadEnvC scenarioRows).2.inserted
      = [session_data "sid-1" "Directly provided data"
          "processed_data/sid-1.parquet" 0]
    ∧ lookupKey (session_data "sid-1" "Directly provided data"
        "processed_data/sid-1.parquet" 0) "categorized_insights" = none
    ∧ ¬(lookupKey (session_data "sid-1" "Directly provided data"
        "processed_data/sid-1.parquet" 0) "categorized_insights"
          = some (Json.arr [])) :=
  ⟨rfl, rfl, fun h => Option.noConfusion h⟩

/-- Concrete instance of the amended C3. -/
theorem C3_session_record_witness :
    (load_data_node loadEnvC scenarioRows).2.inserted
      = [session_data "sid-1" "Directly provided data"
          "processed_data/sid-1.parquet" 0]
    ∧ lookupKey (session_data "sid-1" "Directly provided data"
        "processed_data/sid-1.parquet" 0) "initial_analysis" = some Json.null
    ∧ lookupKey (session_data "sid-1" "Directly provided data"
        "processed_data/sid-1.parquet" 0) "expires_at" = some (Json.num 86400) := by
  have h := C3_session_record loadEnvC scenarioRows (by decide) (by decide) rfl
    (by decide) rfl rfl
  exact ⟨h.1, h.2.1, h.2.2.2.1⟩

/-- C4: a follow-up question against a session id absent from the store
yields a 404 NotFoundError, whatever the in-process fallback cache holds —
the cached table, analysis and session id are quantified over and never
produce an answer for an unknown id. -/
theorem C4_chat_unknown_session (fetch : String → Option ChatSessionRec)
    (dl : String → Option (List Row)) (ag : Except String (Option String))
    (upd : Bool) (gDf : Option (List Row)) (gAn : String) (gSid : Option String)
    (sid q : String) (h : fetch sid = none) :
    chat_with_insight ⟨fetch, dl, ag, upd, gDf, gAn, gSid⟩ sid q
      = ChatOutcome.httpError 404 ("Session " ++ sid ++ " not found or expired.")
    ∧ ∀ a hist p, chat_with_insight ⟨fetch, dl, ag, upd, gDf, gAn, gSid⟩ sid q
        ≠ ChatOutcome.ok a hist p := by
  have he : chat_with_insight ⟨fetch, dl, ag, upd, gDf, gAn, gSid⟩ sid q
      = ChatOutcome.httpError 404 ("Session " ++ sid ++ " not found or expired.") := by
    simp [chat_with_insight, h]
  refine ⟨he, fun a hist p hc => ?_⟩
  rw [he] at hc
  exact ChatOutcome.noConfusion hc

/-- Concrete instance of C4: even with the fallback cache primed for the
requested id, an unknown session id yields 404. -/
theorem C4_chat_unknown_session_witness :
    chat_with_insight
      ⟨ghostFetch, fun _ => some scenarioRows, Except.ok (some "cached"), true,
        some scenarioRows, "cached analysis", some "ghost"⟩ "ghost" "What now?"
      = ChatOutcome.httpError 404 "Session ghost not found or expired." :=
  (C4_chat_unknown_session ghostFetch (fun _ => some scenarioRows)
    (Except.ok (some "cached")) true (some scenarioRows) "cached analysis"
    (some "ghost") "ghost" "What now?" rfl).1

/-- C8: every follow-up call that produces an answer appends the user turn
then the assistant turn to the end of the stored chat history, preserving
all prior turns in their original order, and issues that update; the
update's failure is only logged — the returned answer and written history
are identical whether persistence succeeds or fails. -/
theorem C8_chat_history_append (env : ChatEnv) (sid q : String)
    (r : ChatSessionRec) (df : List Row) (out : Option String)
    (hf : env.fetchSession sid = some r)
    (hd : env.downloadDf r.dataframe_storage_path = some df)
    (ha : env.agent = Except.ok out) :
    chat_with_insight env sid q
      = ChatOutcome.ok (out.getD noOutputDefault)
          (r.chat_history
            ++ [⟨"user", q⟩, ⟨"assistant", out.getD noOutputDefault⟩])
          env.updateOk
    ∧ (∀ b b' a₁ h₁ p₁ a₂ h₂ p₂,
        chat_with_insight { env with updateOk := b } sid q
          = ChatOutcome.ok a₁ h₁ p₁ →
        chat_with_insight { env with updateOk := b' } sid q
          = ChatOutcome.ok a₂ h₂ p₂ →
        a₁ = a₂ ∧ h₁ = h₂) := by
  have hrun : ∀ b, chat_with_insight { env with updateOk := b } sid q
      = ChatOutcome.ok (out.getD noOutputDefault)
          (r.chat_history
            ++ [⟨"user", q⟩, ⟨"assistant", out.getD noOutputDefault⟩]) b := by
    intro b
    simp [chat_with_insight, hf, hd, chatWithDf, chatAgent, ha]
  refine ⟨?_, ?_⟩
  · have h := hrun env.updateOk
    simpa using h
  · intro b b' a₁ h₁ p₁ a₂ h₂ p₂ h1 h2
    rw [hrun b] at h1
    rw [hrun b'] at h2
    injection h1 with e1 e2 e3
    injection h2 with f1 f2 f3
    exact ⟨e1.symm.trans f1, e2.symm.trans f2⟩

/-- Concrete instance of C8: the two prior turns survive in order, the new
user and assistant turns are appended, and a failed persistence update
still returns the answer. -/
theorem C8_chat_history_append_witness :
    chat_with_insight chatEnvC "sid-1" "q1"
      = ChatOutcome.ok "The answer."
          [⟨"user", "q0"⟩, ⟨"assistant", "a0"⟩,
           ⟨"user", "q1"⟩, ⟨"assistant", "The answer."⟩] false := by
  have h := C8_chat_history_append chatEnvC "sid-1" "q1" chatRecC scenarioRows
    (some "The answer.") rfl rfl rfl
  exact h.1

/-- C10: both session-fetch endpoints always return `chat_history` and
`categorized_insights` as lists — a stored value that is missing, null, or
not a list comes back as the empty list, and a stored list comes back
unchanged — on `GET /session/{id}` and on every record of
`GET /sessions`. -/
theorem C10_session_fetch_list_coercion :
    (∀ raw key, lookupKey raw key = none → coerceListField raw key = [])
    ∧ (∀ raw key, lookupKey raw key = some Json.null → coerceListField raw key = [])
    ∧ (∀ raw key v, lookupKey raw key = some v → (∀ xs, v ≠ Json.arr xs) →
        coerceListField raw key = [])
    ∧ (∀ raw key xs, lookupKey raw key = some (Json.arr xs) →
        coerceListField raw key = xs)
    ∧ (∀ raw, (get_session_data raw).chat_history = coerceListField raw "chat_history"
        ∧ (get_session_data raw).categorized_insights
          = coerceListField raw "categorized_insights")
    ∧ (∀ raws raw, raw ∈ raws → ∃ resp ∈ get_all_sessions raws,
        resp.chat_history = coerceListField raw "chat_history"
        ∧ resp.categorized_insights = coerceListField raw "categorized_insights") := by
  refine ⟨?_, ?_, ?_, ?_, fun raw => ⟨rfl, rfl⟩, ?_⟩
  · intro raw key h
    simp [coerceListField, h]
  · intro raw key h
    simp [coerceListField, h]
  · intro raw key v h hne
    cases v with
    | arr xs => exact absurd rfl (hne xs)
    | null => simp [coerceListField, h]
    | bool b => simp [coerceListField, h]
    | num n => simp [coerceListField, h]
    | str s => simp [coerceListField, h]
    | obj kvs => simp [coerceListField, h]
  · intro raw key xs h
    simp [coerceListField, h]
  · intro raws raw hmem
    exact ⟨_, List.mem_map_of_mem _ hmem, rfl, rfl⟩

/-- Concrete instance of C10: a null `chat_history` comes back as the empty
list and a stored list comes back unchanged, on both endpoints. -/
theorem C10_session_fetch_list_coercion_witness :
    (get_session_data rawNullHistory).chat_history = []
    ∧ (get_session_data rawNullHistory).categorized_insights = [Json.str "x"]
    ∧ ∃ resp ∈ get_all_sessions [rawNullHistory], resp.chat_history = [] := by
  obtain ⟨h1, h2, h3, h4, h5, h6⟩ := C10_session_fetch_list_coercion
  refine ⟨?_, ?_, ?_⟩
  · rw [(h5 rawNullHistory).1]
    exact h2 rawNullHistory "chat_history" rfl
  · rw [(h5 rawNullHistory).2]
    exact h4 rawNullHistory "categorized_insights" [Json.str "x"] rfl
  · obtain ⟨resp, hresp, hch, _⟩ :=
      h6 [rawNullHistory] rawNullHistory (by simp)
    exact ⟨resp, hresp, hch.trans (h2 rawNullHistory "chat_history" rfl)⟩

end AIAnalyst
